import Mathlib

/-!
Verification development for the M-PESA message parser
(src/mpesa-message-parser.py).

The Python module compiles one large regular expression with `re.IGNORECASE`
recognising the transaction shapes (lines 8-48), a second case-sensitive
regular expression recognising failure phrasings (lines 50-62), a numeric
normaliser `clean_amount` (lines 64-84) and a driver `parse_message`
(lines 86-160).

This file is a shallow embedding.  The two concrete regular expressions are
transcribed element-by-element into continuation-passing matching
combinators with Python `re` semantics: `re.search` tries start positions
leftmost first, alternatives are tried left to right, quantifiers are
greedy or lazy exactly as written, all with full backtracking; named groups
capture the consumed span functionally, so a capture made on an abandoned
backtracking path is discarded, as in Python.  `clean_amount` is modelled
with Python float values as rationals, `float()` being modelled on plain
decimal literals (the only numeral forms reachable here).  The two
`datetime.strptime` format strings are modelled by inlining the character
alternations CPython's `_strptime` builds for `%d`, `%m`, `%y`, `%I`, `%M`,
`%p`, plus the calendar validation done by the `datetime` constructor.
Python exceptions escaping `parse_message` are modelled as a distinguished
`raised` result, the returned `{"error": ...}` dictionaries as `errorDict`.
-/

namespace Mpesa

/-- ASCII lower-casing, used to model the effect of `re.IGNORECASE`. -/
def lowerC (c : Char) : Char :=
  if 'A' ≤ c ∧ c ≤ 'Z' then Char.ofNat (c.toNat + 32) else c

/-- Case-insensitive character comparison (the main pattern is compiled with
`re.IGNORECASE`). -/
def ciEq (a b : Char) : Bool := lowerC a == lowerC b

/-- Python regex `\s` (the ASCII whitespace range, which is all that occurs
here). -/
def isWs (c : Char) : Bool :=
  c == ' ' || c == '\t' || c == '\n' || c == '\r' || c == '\x0b' || c == '\x0c'

/-- Python regex `\d` (ASCII digits). -/
def isDigitC (c : Char) : Bool := decide ('0' ≤ c) && decide (c ≤ '9')

/-- The class `[\d,.]` used for every amount capture. -/
def isAmtC (c : Char) : Bool := isDigitC c || c == ',' || c == '.'

/-- The class `[A-Z0-9]` under `re.IGNORECASE`: digits and letters of either
case. -/
def isIdC (c : Char) : Bool :=
  isDigitC c || (decide ('A' ≤ c) && decide (c ≤ 'Z')) ||
    (decide ('a' ≤ c) && decide (c ≤ 'z'))

/-- Python regex `.` (anything but a newline; `DOTALL` is not set). -/
def isDotC (c : Char) : Bool := !(c == '\n')

/-- The class `[AP]` under `re.IGNORECASE`. -/
def isAPC (c : Char) : Bool := lowerC c == 'a' || lowerC c == 'p'

/-- The named groups of the main pattern, i.e. the keys of
`match.groupdict()`: a group that did not take part in the match is
`none`. -/
structure Caps where
  transaction_id : Option String := none
  fuliza_amount : Option String := none
  fuliza_interest : Option String := none
  fuliza_total : Option String := none
  fuliza_due_date : Option String := none
  fuliza_repaid : Option String := none
  fuliza_limit : Option String := none
  received_amount : Option String := none
  sender_name : Option String := none
  sender_phone : Option String := none
  paid_amount : Option String := none
  paid_to : Option String := none
  sent_amount : Option String := none
  recipient : Option String := none
  account_number : Option String := none
  recipient_phone : Option String := none
  mshwari_amount : Option String := none
  mshwari_direction : Option String := none
  airtime_amount : Option String := none
  airtime_phone : Option String := none
  withdraw_amount : Option String := none
  agent_details : Option String := none
  balance_amount : Option String := none
  mpesa_balance : Option String := none
  mshwari_balance : Option String := none
  date : Option String := none
  time : Option String := none
  transaction_cost : Option String := none
  daily_limit : Option String := none
  deriving DecidableEq, Repr

/-- A matcher continuation: the remaining input is mapped to the captures
collected by the rest of the pattern, `none` meaning the rest fails and the
current construct must backtrack. -/
abbrev K := List Char → Option Caps

/-- A single character from a class. -/
def cls (p : Char → Bool) (k : K) : K := fun cs =>
  match cs with
  | [] => none
  | c :: cs2 => if p c then k cs2 else none

/-- A case-insensitive literal (every letter literal of the main pattern,
because of `re.IGNORECASE`). -/
def litCI : List Char → K → K
  | [], k => k
  | c :: l, k => fun cs =>
    match cs with
    | [] => none
    | c2 :: cs2 => if ciEq c c2 then litCI l k cs2 else none

/-- A case-sensitive literal (the failure pattern is compiled without
flags). -/
def litCS : List Char → K → K
  | [], k => k
  | c :: l, k => fun cs =>
    match cs with
    | [] => none
    | c2 :: cs2 => if c = c2 then litCS l k cs2 else none

/-- Greedy star over a character class: longest first, with backtracking. -/
def manyG (p : Char → Bool) (k : K) : K
  | [] => k []
  | c :: cs =>
    if p c then
      match manyG p k cs with
      | some r => some r
      | none => k (c :: cs)
    else k (c :: cs)

/-- Lazy star over a character class: shortest first, with backtracking. -/
def manyL (p : Char → Bool) (k : K) : K
  | [] => k []
  | c :: cs =>
    match k (c :: cs) with
    | some r => some r
    | none => if p c then manyL p k cs else none

/-- Greedy plus over a character class. -/
def plusG (p : Char → Bool) (k : K) : K := cls p (manyG p k)

/-- Lazy plus over a character class (for `[^0-9]+?` and `[^.]+?`). -/
def plusL (p : Char → Bool) (k : K) : K := cls p (manyL p k)

/-- Greedy option `(?:X)?`: try X first, then skip it. -/
def optG (x : K → K) (k : K) : K := fun cs =>
  match x k cs with
  | some r => some r
  | none => k cs

/-- Exact repetition of a character class, for `{10}` and `{2}`. -/
def repEx : Nat → (Char → Bool) → K → K
  | 0, _, k => k
  | n + 1, p, k => cls p (repEx n p k)

/-- Greedy `{1,2}` over a character class: two characters first, then one. -/
def rep12 (p : Char → Bool) (k : K) : K := fun cs =>
  match cls p (cls p k) cs with
  | some r => some r
  | none => cls p k cs

/-- Ordered alternation: alternatives are tried left to right and the first
one that lets the whole rest of the pattern succeed wins. -/
def altC : List (K → K) → K → K
  | [], _ => fun _ => none
  | b :: bs, k => fun cs =>
    match b k cs with
    | some r => some r
    | none => altC bs k cs

/-- A named capturing group: on overall success the span the body consumed
is stored via `set` into the captures produced by the rest of the match. -/
def grp (set : Caps → String → Caps) (body : K → K) (k : K) : K := fun cs =>
  body (fun cs2 => (k cs2).map (fun caps =>
    set caps (String.mk (cs.take (cs.length - cs2.length))))) cs

/-- The fragment `w1\sw2\s...\swn` of the main pattern: case-insensitive
word literals joined by single `\s` characters. -/
def wordsCI : List String → K → K
  | [], k => k
  | [w], k => litCI w.data k
  | w :: ws, k => litCI w.data (cls isWs (wordsCI ws k))

/-- The same fragment shape, case-sensitively, for the failure pattern. -/
def wordsCS : List String → K → K
  | [], k => k
  | [w], k => litCS w.data k
  | w :: ws, k => litCS w.data (cls isWs (wordsCS ws k))

/-- The fragment matching two digits, a slash, two digits, a slash, two
digits (the Fuliza due date, line 18). -/
def dateDDMMYY : K → K :=
  repEx 2 isDigitC ∘ cls (· = '/') ∘ repEx 2 isDigitC ∘ cls (· = '/') ∘
  repEx 2 isDigitC

/-- Pattern lines 16-18: Fuliza M-PESA usage. -/
def bFulizaUsed : K → K :=
  wordsCI ["Fuliza", "M-PESA", "amount", "is", "Ksh"] ∘ manyG isWs ∘
  grp (fun c s => { c with fuliza_amount := some s }) (plusG isAmtC) ∘
  optG (cls (· = '.')) ∘ manyG isWs ∘
  wordsCI ["Interest", "charged", "Ksh"] ∘ manyG isWs ∘
  grp (fun c s => { c with fuliza_interest := some s }) (plusG isAmtC) ∘
  optG (cls (· = '.')) ∘ manyG isWs ∘
  wordsCI ["Total", "Fuliza", "M-PESA", "outstanding", "amount", "is", "Ksh"] ∘
  manyG isWs ∘
  grp (fun c s => { c with fuliza_total := some s }) (plusG isAmtC) ∘
  manyG isWs ∘ wordsCI ["due", "on"] ∘ cls isWs ∘
  grp (fun c s => { c with fuliza_due_date := some s }) dateDDMMYY

/-- Pattern lines 21-22: Fuliza M-PESA repayment. -/
def bFulizaRepaid : K → K :=
  litCI "Ksh".data ∘ manyG isWs ∘
  grp (fun c s => { c with fuliza_repaid := some s }) (plusG isAmtC) ∘
  cls isWs ∘ wordsCI ["from", "your", "M-PESA", "has", "been", "used", "to"] ∘
  cls isWs ∘ altC [litCI "fully".data, litCI "partially".data] ∘
  cls isWs ∘ wordsCI ["pay", "your", "outstanding", "Fuliza", "M-PESA"] ∘
  optG (cls (· = '.')) ∘
  optG (manyG isWs ∘
    wordsCI ["Available", "Fuliza", "M-PESA", "limit", "is", "Ksh"] ∘
    manyG isWs ∘
    grp (fun c s => { c with fuliza_limit := some s }) (plusG isAmtC))

/-- Pattern line 25: money received. -/
def bReceived : K → K :=
  wordsCI ["You", "have", "received", "Ksh"] ∘
  grp (fun c s => { c with received_amount := some s }) (plusG isAmtC) ∘
  cls isWs ∘ litCI "from".data ∘ cls isWs ∘
  grp (fun c s => { c with sender_name := some s }) (plusL (fun c => !isDigitC c)) ∘
  optG (cls isWs ∘
    grp (fun c s => { c with sender_phone := some s }) (plusG isDigitC))

/-- Pattern line 26: payment to a paybill or till. -/
def bPaid : K → K :=
  litCI "Ksh".data ∘
  grp (fun c s => { c with paid_amount := some s }) (plusG isAmtC) ∘
  cls isWs ∘ wordsCI ["paid", "to"] ∘ cls isWs ∘
  grp (fun c s => { c with paid_to := some s }) (plusG (fun c => !(c = '.')))

/-- Pattern line 27: money sent. -/
def bSent : K → K :=
  litCI "Ksh".data ∘
  grp (fun c s => { c with sent_amount := some s }) (plusG isAmtC) ∘
  cls isWs ∘ wordsCI ["sent", "to"] ∘ cls isWs ∘
  grp (fun c s => { c with recipient := some s }) (plusL (fun c => !isDigitC c)) ∘
  optG (cls isWs ∘ wordsCI ["for", "account"] ∘ cls isWs ∘
    grp (fun c s => { c with account_number := some s }) (plusG (fun c => !isWs c))) ∘
  optG (cls isWs ∘
    grp (fun c s => { c with recipient_phone := some s }) (plusG isDigitC))

/-- Pattern line 28: M-Shwari transfer. -/
def bMshwari : K → K :=
  litCI "Ksh".data ∘
  grp (fun c s => { c with mshwari_amount := some s }) (plusG isAmtC) ∘
  cls isWs ∘ litCI "transferred".data ∘ cls isWs ∘
  grp (fun c s => { c with mshwari_direction := some s })
    (altC [litCI "from".data, litCI "to".data]) ∘
  cls isWs ∘ wordsCI ["M-Shwari", "account"]

/-- Pattern line 29: airtime purchase. -/
def bAirtime : K → K :=
  wordsCI ["You", "bought", "Ksh"] ∘
  grp (fun c s => { c with airtime_amount := some s }) (plusG isAmtC) ∘
  cls isWs ∘ wordsCI ["of", "airtime"] ∘
  optG (cls isWs ∘ litCI "for".data ∘ cls isWs ∘
    grp (fun c s => { c with airtime_phone := some s }) (plusG isDigitC))

/-- Pattern line 30: agent withdrawal. -/
def bWithdraw : K → K :=
  optG (litCI "on".data ∘ cls isWs ∘ plusL (fun c => !(c = '.'))) ∘
  manyG isWs ∘ litCI "Withdraw".data ∘ manyG isWs ∘ litCI "Ksh".data ∘
  grp (fun c s => { c with withdraw_amount := some s }) (plusG isAmtC) ∘
  cls isWs ∘ litCI "from".data ∘ cls isWs ∘
  grp (fun c s => { c with agent_details := some s }) (plusG (fun c => !(c = '.')))

/-- Pattern line 31: balance check. -/
def bBalance : K → K :=
  wordsCI ["Your", "account", "balance", "was:", "M-PESA", "Account", ":", "Ksh"] ∘
  grp (fun c s => { c with balance_amount := some s }) (plusG isAmtC)

/-- The nine alternatives of lines 14-32, in source order. -/
def branches : List (K → K) :=
  [bFulizaUsed, bFulizaRepaid, bReceived, bPaid, bSent, bMshwari, bAirtime,
   bWithdraw, bBalance]

/-- Pattern line 35: the optional trailing M-PESA balance section. -/
def secBalance : K → K :=
  optG (manyL isDotC ∘
    optG (litCI "New".data ∘ cls isWs) ∘
    optG (litCI "M-PESA".data ∘ cls isWs) ∘
    litCI "balance".data ∘
    optG (cls isWs ∘ litCI "is".data) ∘
    cls isWs ∘ litCI "Ksh".data ∘ manyG isWs ∘
    grp (fun c s => { c with mpesa_balance := some s }) (plusG isAmtC))

/-- Pattern line 36: the optional trailing M-Shwari balance section. -/
def secMshwariBal : K → K :=
  optG (manyL isDotC ∘ litCI "M-Shwari".data ∘ cls isWs ∘
    altC [litCI "balance".data, wordsCI ["saving", "account", "balance"]] ∘
    optG (cls isWs ∘ litCI "is".data) ∘
    cls isWs ∘ litCI "Ksh".data ∘ manyG isWs ∘
    grp (fun c s => { c with mshwari_balance := some s }) (plusG isAmtC))

/-- The fragment matching one or two digits, a slash, one or two digits, a
slash, two digits (the trailing date capture, line 39). -/
def dateBody : K → K :=
  rep12 isDigitC ∘ cls (· = '/') ∘ rep12 isDigitC ∘ cls (· = '/') ∘
  repEx 2 isDigitC

/-- The fragment matching one or two digits, a colon, two digits, optional
whitespace and an AM or PM marker (the trailing time capture, line 39). -/
def timeBody : K → K :=
  rep12 isDigitC ∘ cls (· = ':') ∘ repEx 2 isDigitC ∘ manyG isWs ∘
  cls isAPC ∘ litCI "M".data

/-- Pattern line 39: the optional trailing date and time section. -/
def secDate : K → K :=
  optG (manyL isDotC ∘
    optG (litCI "on".data ∘ cls isWs) ∘
    grp (fun c s => { c with date := some s }) dateBody ∘
    optG (cls isWs ∘ litCI "at".data ∘ cls isWs ∘
      grp (fun c s => { c with time := some s }) timeBody))

/-- The fragment matching an optional dot, digits, an optional dot and
optional digits (the transaction-cost capture, line 42). -/
def costBody : K → K :=
  optG (cls (· = '.')) ∘ plusG isDigitC ∘ optG (cls (· = '.')) ∘
  manyG isDigitC

/-- Pattern line 42: the optional trailing transaction-cost section. -/
def secCost : K → K :=
  optG (manyL isDotC ∘ wordsCI ["Transaction", "cost"] ∘
    optG (altC [cls isWs, cls (· = ',') ∘ cls isWs]) ∘
    litCI "Ksh".data ∘
    optG (grp (fun c s => { c with transaction_cost := some s }) costBody))

/-- Pattern line 45: the optional trailing daily-limit section. -/
def secLimit : K → K :=
  optG (manyL isDotC ∘
    wordsCI ["Amount", "you", "can", "transact", "within", "the", "day", "is"] ∘
    cls isWs ∘
    grp (fun c s => { c with daily_limit := some s }) (plusG isAmtC))

/-- The whole main pattern of lines 8-46: transaction id, confirmation
marker, the shape alternation, then the five optional trailing sections. -/
def mainPat : K → K :=
  grp (fun c s => { c with transaction_id := some s }) (repEx 10 isIdC) ∘
  plusG isWs ∘ litCI "confirmed".data ∘ optG (cls (· = '.')) ∘ manyG isWs ∘
  altC branches ∘
  secBalance ∘ secMshwariBal ∘ secDate ∘ secCost ∘ secLimit

/-- The continuation closing a `re.search`: the pattern need not span the
whole string, so any remainder is accepted, yielding empty captures that
the pattern's groups then fill on the way out. -/
def acceptK : K := fun _ => some {}

/-- Model of the re.search position scan: try the pattern at every start
position, leftmost first. -/
def searchL (f : List Char → Option Caps) : List Char → Option Caps
  | [] => f []
  | c :: cs =>
    match f (c :: cs) with
    | some r => some r
    | none => searchL f cs

/-- Model of the call self.pattern.search(message) (line 94). -/
def mainSearch (cs : List Char) : Option Caps := searchL (mainPat acceptK) cs

/-- The failed-transaction pattern of lines 50-62 (no `re.IGNORECASE`). -/
def failedPat : K → K :=
  litCS "Failed.".data ∘ cls isWs ∘
  altC [
    wordsCS ["You", "do", "not", "have", "enough", "money"],
    wordsCS ["Insufficient", "funds", "in", "your", "M-PESA", "account"],
    wordsCS ["You", "have", "insufficient", "funds"],
    wordsCS ["Insufficient", "funds", "in", "your", "M-PESA", "account", "as",
             "well", "as", "Fuliza", "M-PESA"],
    wordsCS ["You", "have", "insufficient", "funds", "in", "your", "M-Shwari",
             "account"],
    wordsCS ["You", "have", "reached", "your", "Fuliza", "M-PESA", "limit"],
    wordsCS ["Your", "Fuliza", "M-PESA", "limit", "is", "not", "available",
             "at", "this", "time"]]

/-- Model of the call self.failed_pattern.search(message) (line 92), as a
Boolean. -/
def failedSearch (cs : List Char) : Bool :=
  (searchL (failedPat acceptK) cs).isSome

/-- The numeric value of a digit list, most significant first. -/
def natOfDigits (l : List Char) : Nat :=
  l.foldl (fun n c => 10 * n + (c.toNat - 48)) 0

/-- The unsigned part of a decimal literal: digits, optionally a decimal
point with more digits, at least one digit overall, nothing else. -/
def decBody (sign : Int) (body : List Char) : Option ℚ :=
  match body.dropWhile isDigitC with
  | [] =>
    if body.takeWhile isDigitC = [] then none
    else some (mkRat (sign * natOfDigits (body.takeWhile isDigitC)) 1)
  | '.' :: fr =>
    if fr.all isDigitC ∧ (body.takeWhile isDigitC ≠ [] ∨ fr ≠ []) then
      some (mkRat (sign * (natOfDigits (body.takeWhile isDigitC) *
        10 ^ fr.length + natOfDigits fr)) (10 ^ fr.length))
    else none
  | _ => none

/-- Model of Python `float()` on plain decimal literals: an optional sign,
digits with at most one decimal point, and at least one digit overall
(so `float("")`, `float(".")` and `float("1.2.3")` raise `ValueError`).
The value is modelled as a rational.  Exponent, underscore, `inf` and
`nan` forms never arise from the cleaned strings handled here and are
outside the model. -/
def floatOfDec (l : List Char) : Option ℚ :=
  match l with
  | [] => decBody 1 []
  | c :: r =>
    if c = '-' then decBody (-1) r
    else if c = '+' then decBody 1 r
    else decBody 1 (c :: r)

/-- Python `str.strip()` on a character list (ASCII whitespace). -/
def pyStripL (l : List Char) : List Char :=
  ((l.dropWhile isWs).reverse.dropWhile isWs).reverse

/-- Python `str.rstrip(".")`. -/
def rstripDots (l : List Char) : List Char :=
  (l.reverse.dropWhile (· = '.')).reverse

/-- Python `str.split(".")`. -/
def splitDots : List Char → List (List Char)
  | [] => [[]]
  | '.' :: r => [] :: splitDots r
  | c :: r =>
    match splitDots r with
    | [] => [[c]]
    | p :: ps => (c :: p) :: ps

/-- The outcome of `clean_amount`: a float result or a `ValueError`. -/
inductive CleanRes where
  | ok (q : ℚ)
  | valueError
  deriving DecidableEq, Repr

/-- Line 73-74 of `clean_amount`: a zero is prepended when the cleaned text
starts with a decimal point. -/
def prependZero (l : List Char) : List Char :=
  match l with
  | [] => []
  | c :: r => if c = '.' then '0' :: c :: r else c :: r

/-- The cleaning steps of `clean_amount` before the double-decimal check
(lines 70-77): commas and spaces removed, a zero prepended before a leading
decimal point, then surrounding whitespace and trailing periods stripped. -/
def preCollapse (s : String) : List Char :=
  rstripDots (pyStripL (prependZero
    ((s.data.filter (fun c => !(c = ','))).filter (fun c => !(c = ' ')))))

/-- The cleaned string handed to `float()` (lines 70-82): `preCollapse`,
then, when more than one decimal point remains, the first segment plus the
last segment of the dot-split. -/
def cleanCore (s : String) : List Char :=
  if 1 < ((preCollapse s).filter (fun c => c = '.')).length then
    (splitDots (preCollapse s)).headD [] ++
      '.' :: (splitDots (preCollapse s)).getLastD []
  else preCollapse s

/-- Model of `clean_amount` (lines 64-84): empty input returns 0.0;
otherwise the cleaned string goes through Python `float()`, whose
`ValueError` is `CleanRes.valueError`. -/
def clean_amount (s : String) : CleanRes :=
  if s.data = [] then .ok 0
  else
    match floatOfDec (cleanCore s) with
    | some q => .ok q
    | none => .valueError

/-- A `datetime.date` value. -/
structure PyDate where
  year : Nat
  month : Nat
  day : Nat
  deriving DecidableEq, Repr

/-- A `datetime.datetime` value (seconds are always zero here). -/
structure PyDateTime where
  year : Nat
  month : Nat
  day : Nat
  hour : Nat
  minute : Nat
  deriving DecidableEq, Repr

def isLeap (y : Nat) : Bool := y % 4 = 0 ∧ (¬ y % 100 = 0 ∨ y % 400 = 0)

def daysInMonth (y m : Nat) : Nat :=
  if m = 2 then (if isLeap y then 29 else 28)
  else if m = 4 ∨ m = 6 ∨ m = 9 ∨ m = 11 then 30
  else 31

def digitVal (c : Char) : Nat := c.toNat - 48

/-- strptime `%d`: CPython's alternation `(3[01]|[12]\d|0[1-9]|[1-9])`. -/
def pDay : List Char → Option (Nat × List Char)
  | '3' :: '0' :: r => some (30, r)
  | '3' :: '1' :: r => some (31, r)
  | c1 :: c2 :: r =>
    if (c1 = '1' ∨ c1 = '2') ∧ isDigitC c2 then
      some (10 * digitVal c1 + digitVal c2, r)
    else if c1 = '0' ∧ ('1' ≤ c2 ∧ c2 ≤ '9') then some (digitVal c2, r)
    else if '1' ≤ c1 ∧ c1 ≤ '9' then some (digitVal c1, c2 :: r)
    else none
  | [c1] => if '1' ≤ c1 ∧ c1 ≤ '9' then some (digitVal c1, []) else none
  | [] => none

/-- strptime `%m` and `%I`: CPython's alternation `(1[0-2]|0[1-9]|[1-9])`. -/
def pMon : List Char → Option (Nat × List Char)
  | '1' :: c2 :: r =>
    if c2 = '0' ∨ c2 = '1' ∨ c2 = '2' then some (10 + digitVal c2, r)
    else some (1, c2 :: r)
  | '0' :: c2 :: r => if '1' ≤ c2 ∧ c2 ≤ '9' then some (digitVal c2, r) else none
  | c1 :: r => if '1' ≤ c1 ∧ c1 ≤ '9' then some (digitVal c1, r) else none
  | [] => none

/-- strptime `%y`: exactly two digits; 0-68 maps to 2000+, 69-99 to 1900+. -/
def pYear2 : List Char → Option (Nat × List Char)
  | c1 :: c2 :: r =>
    if isDigitC c1 ∧ isDigitC c2 then
      let v := 10 * digitVal c1 + digitVal c2
      some ((if v ≤ 68 then 2000 + v else 1900 + v), r)
    else none
  | _ => none

/-- strptime `%M`: CPython's alternation `([0-5]\d|\d)`. -/
def pMin : List Char → Option (Nat × List Char)
  | c1 :: c2 :: r =>
    if ('0' ≤ c1 ∧ c1 ≤ '5') ∧ isDigitC c2 then
      some (10 * digitVal c1 + digitVal c2, r)
    else if isDigitC c1 then some (digitVal c1, c2 :: r)
    else none
  | [c1] => if isDigitC c1 then some (digitVal c1, []) else none
  | [] => none

/-- A whitespace character in the format string matches `\s+`. -/
def pWsPlus : List Char → Option (List Char)
  | c :: r => if isWs c then some (r.dropWhile isWs) else none
  | [] => none

def pLitChar (x : Char) : List Char → Option (List Char)
  | c :: r => if c = x then some r else none
  | [] => none

/-- strptime `%p`: `(AM|PM)`, case-insensitive; `true` means PM. -/
def pAmPm : List Char → Option (Bool × List Char)
  | c1 :: c2 :: r =>
    if lowerC c2 = 'm' then
      if lowerC c1 = 'a' then some (false, r)
      else if lowerC c1 = 'p' then some (true, r)
      else none
    else none
  | _ => none

/-- Model of `datetime.strptime(s, "%d/%m/%y %I:%M %p")` (line 156),
including the day-of-month validation done by the datetime constructor and
the 12-hour to 24-hour conversion. -/
def strptimeDT (s : String) : Option PyDateTime := do
  let (d, r1) ← pDay s.data
  let r2 ← pLitChar '/' r1
  let (m, r3) ← pMon r2
  let r4 ← pLitChar '/' r3
  let (y, r5) ← pYear2 r4
  let r6 ← pWsPlus r5
  let (h12, r7) ← pMon r6
  let r8 ← pLitChar ':' r7
  let (mi, r9) ← pMin r8
  let r10 ← pWsPlus r9
  let (pm, r11) ← pAmPm r10
  if r11 = [] ∧ d ≤ daysInMonth y m then
    some { year := y, month := m, day := d,
           hour := (if pm then (if h12 = 12 then 12 else h12 + 12)
                    else (if h12 = 12 then 0 else h12)),
           minute := mi }
  else none

/-- Model of `datetime.strptime(s, "%d/%m/%y").date()` (line 158). -/
def strptimeD (s : String) : Option PyDate := do
  let (d, r1) ← pDay s.data
  let r2 ← pLitChar '/' r1
  let (m, r3) ← pMon r2
  let r4 ← pLitChar '/' r3
  let (y, r5) ← pYear2 r4
  if r5 = [] ∧ d ≤ daysInMonth y m then
    some { year := y, month := m, day := d }
  else none

/-- The ten transaction types assigned by the chain of lines 109-138. -/
inductive TType where
  | FULIZA_USED | FULIZA_REPAYMENT | RECEIVED | PAID | SENT
  | MSHWARI_WITHDRAWAL | MSHWARI_DEPOSIT | AIRTIME | WITHDRAW | BALANCE_CHECK
  deriving DecidableEq, Repr

inductive Status where
  | SUCCESS | FAILED
  deriving DecidableEq, Repr

/-- The final value under the `date` key: still the raw captured string
when a full datetime was also built, a parsed date object when only a date
was captured (lines 153-158). -/
inductive DateVal where
  | raw (s : String)
  | obj (d : PyDate)
  deriving DecidableEq, Repr

inductive PyError where
  | valueError
  deriving DecidableEq, Repr

/-- The dictionary `parse_message` returns on success. -/
structure Record where
  transaction_id : Option String := none
  status : Status := .SUCCESS
  transaction_type : Option TType := none
  amount : Option ℚ := none
  mpesa_balance : Option ℚ := none
  mshwari_balance : Option ℚ := none
  transaction_cost : Option ℚ := none
  daily_limit : Option ℚ := none
  fuliza_interest : Option ℚ := none
  fuliza_total : Option ℚ := none
  fuliza_limit : Option ℚ := none
  fuliza_amount : Option String := none
  fuliza_repaid : Option String := none
  received_amount : Option String := none
  paid_amount : Option String := none
  sent_amount : Option String := none
  mshwari_amount : Option String := none
  airtime_amount : Option String := none
  withdraw_amount : Option String := none
  balance_amount : Option String := none
  fuliza_due_date : Option String := none
  sender_name : Option String := none
  sender_phone : Option String := none
  paid_to : Option String := none
  recipient : Option String := none
  account_number : Option String := none
  recipient_phone : Option String := none
  mshwari_direction : Option String := none
  airtime_phone : Option String := none
  agent_details : Option String := none
  date : Option DateVal := none
  time : Option String := none
  datetime : Option PyDateTime := none
  deriving DecidableEq, Repr

/-- The observable outcome of one `parse_message` call: a success
dictionary, an `{"error": ...}` dictionary returned to the caller, or a
Python exception escaping the call. -/
inductive PyResult where
  | ok (r : Record)
  | errorDict (msg : String)
  | raised (e : PyError)
  deriving DecidableEq, Repr

def pyStrip (s : String) : String := String.mk (pyStripL s.data)

def stripOpt (o : Option String) : Option String := o.map pyStrip

/-- Lines 100-103: every string value in the dict is stripped. -/
def stripCaps (c : Caps) : Caps where
  transaction_id := stripOpt c.transaction_id
  fuliza_amount := stripOpt c.fuliza_amount
  fuliza_interest := stripOpt c.fuliza_interest
  fuliza_total := stripOpt c.fuliza_total
  fuliza_due_date := stripOpt c.fuliza_due_date
  fuliza_repaid := stripOpt c.fuliza_repaid
  fuliza_limit := stripOpt c.fuliza_limit
  received_amount := stripOpt c.received_amount
  sender_name := stripOpt c.sender_name
  sender_phone := stripOpt c.sender_phone
  paid_amount := stripOpt c.paid_amount
  paid_to := stripOpt c.paid_to
  sent_amount := stripOpt c.sent_amount
  recipient := stripOpt c.recipient
  account_number := stripOpt c.account_number
  recipient_phone := stripOpt c.recipient_phone
  mshwari_amount := stripOpt c.mshwari_amount
  mshwari_direction := stripOpt c.mshwari_direction
  airtime_amount := stripOpt c.airtime_amount
  airtime_phone := stripOpt c.airtime_phone
  withdraw_amount := stripOpt c.withdraw_amount
  agent_details := stripOpt c.agent_details
  balance_amount := stripOpt c.balance_amount
  mpesa_balance := stripOpt c.mpesa_balance
  mshwari_balance := stripOpt c.mshwari_balance
  date := stripOpt c.date
  time := stripOpt c.time
  transaction_cost := stripOpt c.transaction_cost
  daily_limit := stripOpt c.daily_limit

/-- Python truthiness of `result.get(key)`: present and non-empty. -/
def truthy : Option String → Bool
  | some s => !s.data.isEmpty
  | none => false

/-- Lines 109-138: the if/elif chain assigning `transaction_type` and
popping the matching shape's raw amount string into the `amount` key.
Returns the type, the raw amount, and the captures with the popped key
removed. -/
def typeChain (c : Caps) : Option TType × Option String × Caps :=
  if truthy c.fuliza_amount then
    (some .FULIZA_USED, c.fuliza_amount, { c with fuliza_amount := none })
  else if truthy c.fuliza_repaid then
    (some .FULIZA_REPAYMENT, c.fuliza_repaid, { c with fuliza_repaid := none })
  else if truthy c.received_amount then
    (some .RECEIVED, c.received_amount, { c with received_amount := none })
  else if truthy c.paid_amount then
    (some .PAID, c.paid_amount, { c with paid_amount := none })
  else if truthy c.sent_amount then
    (some .SENT, c.sent_amount, { c with sent_amount := none })
  else if truthy c.mshwari_amount then
    ((if c.mshwari_direction = some "from" then some .MSHWARI_WITHDRAWAL
      else some .MSHWARI_DEPOSIT),
     c.mshwari_amount, { c with mshwari_amount := none })
  else if truthy c.airtime_amount then
    (some .AIRTIME, c.airtime_amount, { c with airtime_amount := none })
  else if truthy c.withdraw_amount then
    (some .WITHDRAW, c.withdraw_amount, { c with withdraw_amount := none })
  else if truthy c.balance_amount then
    (some .BALANCE_CHECK, c.balance_amount, { c with balance_amount := none })
  else (none, none, c)

/-- One step of the numeric-conversion loop (lines 140-151): an absent key
is skipped; a present value goes through `clean_amount`, and a
`ValueError` is re-raised (`none`). -/
def convOpt (o : Option String) : Option (Option ℚ) :=
  match o with
  | none => some none
  | some s =>
    match clean_amount s with
    | .ok q => some (some q)
    | .valueError => none

/-- Assembling the success dictionary. -/
def assemble (c1 : Caps) (st : Status) (tt : Option TType)
    (amountQ mb sb tc dl fi ft fl : Option ℚ)
    (dv : Option DateVal) (dt : Option PyDateTime) : Record where
  transaction_id := c1.transaction_id
  status := st
  transaction_type := tt
  amount := amountQ
  mpesa_balance := mb
  mshwari_balance := sb
  transaction_cost := tc
  daily_limit := dl
  fuliza_interest := fi
  fuliza_total := ft
  fuliza_limit := fl
  fuliza_amount := c1.fuliza_amount
  fuliza_repaid := c1.fuliza_repaid
  received_amount := c1.received_amount
  paid_amount := c1.paid_amount
  sent_amount := c1.sent_amount
  mshwari_amount := c1.mshwari_amount
  airtime_amount := c1.airtime_amount
  withdraw_amount := c1.withdraw_amount
  balance_amount := c1.balance_amount
  fuliza_due_date := c1.fuliza_due_date
  sender_name := c1.sender_name
  sender_phone := c1.sender_phone
  paid_to := c1.paid_to
  recipient := c1.recipient
  account_number := c1.account_number
  recipient_phone := c1.recipient_phone
  mshwari_direction := c1.mshwari_direction
  airtime_phone := c1.airtime_phone
  agent_details := c1.agent_details
  date := dv
  time := c1.time
  datetime := dt

/-- Lines 153-158: combine a captured date and time through `strptime`, or
parse a lone date; a `ValueError` there is uncaught and escapes the call. -/
def dateStage (st : Status) (tt : Option TType)
    (amountQ mb sb tc dl fi ft fl : Option ℚ) (c1 : Caps) : PyResult :=
  match c1.date, c1.time with
  | some d, some t =>
    match strptimeDT (d ++ " " ++ t) with
    | none => .raised .valueError
    | some dt =>
      .ok (assemble c1 st tt amountQ mb sb tc dl fi ft fl
            (some (.raw d)) (some dt))
  | some d, none =>
    match strptimeD d with
    | none => .raised .valueError
    | some pd =>
      .ok (assemble c1 st tt amountQ mb sb tc dl fi ft fl
            (some (.obj pd)) none)
  | none, _ =>
    .ok (assemble c1 st tt amountQ mb sb tc dl fi ft fl none none)

/-- Lines 140-151: the numeric-conversion loop over the eight listed keys;
the first `ValueError` is printed and re-raised, escaping the call. -/
def convertStage (st : Status) (tt : Option TType) (amt : Option String)
    (c1 : Caps) : PyResult :=
  match convOpt amt, convOpt c1.mpesa_balance, convOpt c1.mshwari_balance,
        convOpt c1.transaction_cost, convOpt c1.daily_limit,
        convOpt c1.fuliza_interest, convOpt c1.fuliza_total,
        convOpt c1.fuliza_limit with
  | some amountQ, some mb, some sb, some tc, some dl, some fi, some ft,
    some fl => dateStage st tt amountQ mb sb tc dl fi ft fl c1
  | _, _, _, _, _, _, _, _ => .raised .valueError

/-- Lines 98-158: everything that happens once the main pattern matched. -/
def matchStage (failed : Bool) (caps0 : Caps) : PyResult :=
  let c := stripCaps caps0
  let st := if failed then Status.FAILED else Status.SUCCESS
  match typeChain c with
  | (tt, amt, c1) => convertStage st tt amt c1

/-- Model of `parse_message` (lines 86-160).  The input is a string, so the
`isinstance` guard of line 88 never fires.  `errorDict` models the
`{"error": ...}` dictionaries returned to the caller; `raised` models an
exception escaping the call (the re-raised `ValueError` of line 151 and
the uncaught `strptime` ValueError of lines 156 and 158). -/
def parse_message (message : String) : PyResult :=
  match mainSearch message.data with
  | none => .errorDict "Message format not recognized"
  | some caps0 => matchStage (failedSearch message.data) caps0

/-- The transaction type of a successful result. -/
def ttypeOf : PyResult → Option TType
  | .ok r => r.transaction_type
  | _ => none

/-- The status of a successful result. -/
def statusOf : PyResult → Option Status
  | .ok r => some r.status
  | _ => none

/-- The amount of a successful result. -/
def amountOf : PyResult → Option ℚ
  | .ok r => r.amount
  | _ => none

/-- The combined datetime of a successful result. -/
def datetimeOf : PyResult → Option PyDateTime
  | .ok r => r.datetime
  | _ => none

/-- The transaction id of a successful result. -/
def tidOf : PyResult → Option String
  | .ok r => r.transaction_id
  | _ => none

def isOk : PyResult → Bool
  | .ok _ => true
  | _ => false

/-! ### Matcher inversion toolkit -/

/-- A pattern element is output-transparent when every success it produces
is a success of its continuation on some suffix of the input. -/
def OutF (f : K → K) : Prop :=
  ∀ (k : K) (cs : List Char) (r : Caps), f k cs = some r → ∃ cs2, k cs2 = some r

/-! ### Field tracking: which groups a pattern element can set -/

/-- A pattern element keeps a field clear when, whenever every continuation
result has the field unset, so does any overall result. -/
def Keeps (f : K → K) (g : Caps → Option String) : Prop :=
  ∀ (k : K) (cs : List Char) (r : Caps),
    (∀ cs2 r2, k cs2 = some r2 → g r2 = none) → f k cs = some r → g r = none

/-! ### Every shape alternative marks its own amount group -/

/-- A good amount capture: a non-empty string of `[\d,.]` characters. -/
def amtGood (o : Option String) : Prop :=
  ∃ s : String, o = some s ∧ s.data ≠ [] ∧ s.data.all isAmtC

def msgC1 : String :=
  "QCF1G2H3I4 Confirmed. You have received Ksh1,000 from John Doe 254722000000 on 12/3/23 at 3:45 PM New M-PESA balance is Ksh2,500"

def msgC2 : String := "AB12CD34EF Confirmed. Ksh,,, paid to Naivas Supermarket"

def msgC3 : String :=
  "Failed. You do not have enough money AB12CD34EG Confirmed. Ksh250 paid to Quickmart."

def msgC4 : String :=
  "AB12CD34EJ Confirmed. You bought Ksh100 of airtime for 254700111222"

def msgC6 : String := "ab12cd34ef Confirmed. Ksh100 paid to Naivas"

def msgC6w : String :=
  "AB12CD34EK Confirmed. Ksh75 sent to Alice Wanjiku 254701234567"

def msgC7 : String :=
  "AB12CD34EF Confirmed. Ksh100 paid to Naivas. on 99/99/99 at 3:45 PM"

def msgC10low : String :=
  "Failed. You do not have enough money AB12CD34EH Confirmed. Ksh250 paid to Tuskys."

def msgC10up : String :=
  "FAILED. You do not have enough money AB12CD34EH Confirmed. Ksh250 paid to Tuskys."

/-! ### Forward evaluation lemmas for the matcher -/

/-- Case-insensitive equality of two character lists of equal length. -/
def ciMatches : List Char → List Char → Bool
  | [], [] => true
  | a :: as2, b :: bs2 => ciEq a b && ciMatches as2 bs2
  | _, _ => false

/-- The continuation the shape alternation of `mainPat` runs with: the five
optional trailing sections followed by acceptance of any remainder. -/
def trailingK : K :=
  secBalance (secMshwariBal (secDate (secCost (secLimit acceptK))))

def msgC5 : String :=
  "AB12CD34EF Confirmed. Ksh100 sent to John Doe. Ksh50 from your M-PESA has been used to fully pay your outstanding Fuliza M-PESA"

def msgC5tid : String := "AB12CD34EL"

def msgC5body : String :=
  "Ksh50 from your M-PESA has been used to fully pay your outstanding Fuliza M-PESA. Available Fuliza M-PESA limit is Ksh450"

/-- A sign prefix of a decimal literal: nothing, a minus, or a plus. -/
def signShape (sgn : List Char) (sign : Int) : Prop :=
  (sgn = [] ∧ sign = 1) ∨ (sgn = ['-'] ∧ sign = -1) ∨ (sgn = ['+'] ∧ sign = 1)

/-! ### Anatomy of a successful parse -/

theorem typeChain_tid (c : Caps) :
    (typeChain c).2.2.transaction_id = c.transaction_id := by
  unfold typeChain
  repeat' split
  all_goals rfl

theorem dateStage_ok {st tt amountQ mb sb tc dl fi ft fl c1 r}
    (h : dateStage st tt amountQ mb sb tc dl fi ft fl c1 = PyResult.ok r) :
    r.status = st ∧ r.transaction_type = tt ∧
    r.transaction_id = c1.transaction_id := by
  unfold dateStage at h
  repeat' split at h
  all_goals injection h
  all_goals rename_i h2
  all_goals subst h2
  all_goals exact ⟨rfl, rfl, rfl⟩

theorem convertStage_ok {st tt amt c1 r}
    (h : convertStage st tt amt c1 = PyResult.ok r) :
    r.status = st ∧ r.transaction_type = tt ∧
    r.transaction_id = c1.transaction_id := by
  unfold convertStage at h
  split at h
  · exact dateStage_ok h
  · injection h

theorem matchStage_ok {failed caps0 r}
    (h : matchStage failed caps0 = PyResult.ok r) :
    r.status = (if failed then Status.FAILED else Status.SUCCESS) ∧
    r.transaction_type = (typeChain (stripCaps caps0)).1 ∧
    r.transaction_id = (stripCaps caps0).transaction_id := by
  unfold matchStage at h
  have h2 := convertStage_ok h
  exact ⟨h2.1, h2.2.1, h2.2.2.trans (typeChain_tid _)⟩

theorem parse_ok_anatomy {m : String} {r : Record}
    (h : parse_message m = PyResult.ok r) :
    ∃ caps, mainSearch m.data = some caps ∧
      r.status = (if failedSearch m.data then Status.FAILED else Status.SUCCESS) ∧
      r.transaction_type = (typeChain (stripCaps caps)).1 ∧
      r.transaction_id = (stripCaps caps).transaction_id := by
  unfold parse_message at h
  split at h
  · injection h
  · next caps hm => exact ⟨caps, hm, matchStage_ok h⟩

theorem out_cls (p : Char → Bool) : OutF (cls p) := by
  intro k cs r h
  unfold cls at h
  split at h
  · exact Option.noConfusion h
  · split at h
    · exact ⟨_, h⟩
    · exact Option.noConfusion h

theorem out_litCI (l : List Char) : OutF (litCI l) := by
  induction l with
  | nil => exact fun k cs r h => ⟨cs, h⟩
  | cons c l ih =>
    intro k cs r h
    unfold litCI at h
    split at h
    · exact Option.noConfusion h
    · split at h
      · exact ih k _ r h
      · exact Option.noConfusion h

theorem out_litCS (l : List Char) : OutF (litCS l) := by
  induction l with
  | nil => exact fun k cs r h => ⟨cs, h⟩
  | cons c l ih =>
    intro k cs r h
    unfold litCS at h
    split at h
    · exact Option.noConfusion h
    · split at h
      · exact ih k _ r h
      · exact Option.noConfusion h

theorem out_manyG (p : Char → Bool) : OutF (manyG p) := by
  intro k cs
  induction cs with
  | nil => exact fun r h => ⟨[], h⟩
  | cons c cs ih =>
    intro r h
    unfold manyG at h
    split at h
    · split at h
      · next heq => exact ih r (h ▸ heq)
      · exact ⟨_, h⟩
    · exact ⟨_, h⟩

theorem out_manyL (p : Char → Bool) : OutF (manyL p) := by
  intro k cs
  induction cs with
  | nil => exact fun r h => ⟨[], h⟩
  | cons c cs ih =>
    intro r h
    unfold manyL at h
    split at h
    · next heq => exact ⟨_, h ▸ heq⟩
    · split at h
      · exact ih r h
      · exact Option.noConfusion h

theorem out_comp {f g : K → K} (hf : OutF f) (hg : OutF g) : OutF (f ∘ g) := by
  intro k cs r h
  obtain ⟨cs2, h2⟩ := hf (g k) cs r h
  exact hg k cs2 r h2

theorem out_plusG (p : Char → Bool) : OutF (plusG p) :=
  out_comp (out_cls p) (out_manyG p)

theorem out_plusL (p : Char → Bool) : OutF (plusL p) :=
  out_comp (out_cls p) (out_manyL p)

theorem out_optG {x : K → K} (hx : OutF x) : OutF (optG x) := by
  intro k cs r h
  unfold optG at h
  split at h
  · next heq => exact hx k cs r (h ▸ heq)
  · exact ⟨cs, h⟩

theorem out_repEx (n : Nat) (p : Char → Bool) : OutF (repEx n p) := by
  induction n with
  | zero => exact fun k cs r h => ⟨cs, h⟩
  | succ n ih => exact out_comp (out_cls p) ih

theorem out_rep12 (p : Char → Bool) : OutF (rep12 p) := by
  intro k cs r h
  unfold rep12 at h
  split at h
  · next heq =>
    obtain ⟨cs2, h2⟩ := out_cls p (cls p k) cs r (h ▸ heq)
    exact out_cls p k cs2 r h2
  · exact out_cls p k cs r h

theorem out_altC {bs : List (K → K)} (hbs : ∀ b ∈ bs, OutF b) :
    OutF (altC bs) := by
  induction bs with
  | nil => intro k cs r h; exact Option.noConfusion h
  | cons b bs ih =>
    intro k cs r h
    unfold altC at h
    split at h
    · next heq => exact hbs b (by simp) k cs r (h ▸ heq)
    · exact ih (fun b2 hb2 => hbs b2 (by simp [hb2])) k cs r h

theorem out_wordsCI (ws : List String) : OutF (wordsCI ws) := by
  induction ws with
  | nil => exact fun k cs r h => ⟨cs, h⟩
  | cons w ws ih =>
    cases ws with
    | nil => exact out_litCI w.data
    | cons w2 ws2 =>
      exact out_comp (out_litCI w.data) (out_comp (out_cls isWs) ih)

theorem altC_inv {bs : List (K → K)} {k : K} {cs : List Char} {r : Caps}
    (h : altC bs k cs = some r) : ∃ b ∈ bs, b k cs = some r := by
  induction bs with
  | nil => exact Option.noConfusion h
  | cons b bs ih =>
    unfold altC at h
    split at h
    · next heq => exact ⟨b, by simp, h ▸ heq⟩
    · obtain ⟨b2, hb2, h2⟩ := ih h
      exact ⟨b2, by simp [hb2], h2⟩

/-! ### Span inversions: which characters a pattern element consumed -/

theorem manyG_split {p : Char → Bool} {k : K} {cs : List Char} {r : Caps}
    (h : manyG p k cs = some r) :
    ∃ pre suf, cs = pre ++ suf ∧ pre.all p ∧ k suf = some r := by
  induction cs with
  | nil => exact ⟨[], [], rfl, rfl, h⟩
  | cons c cs ih =>
    unfold manyG at h
    split at h
    · next hp =>
      split at h
      · next heq =>
        obtain ⟨pre, suf, h1, h2, h3⟩ := ih (h ▸ heq)
        exact ⟨c :: pre, suf, by simp [h1], by simp [hp, h2], h3⟩
      · exact ⟨[], c :: cs, rfl, rfl, h⟩
    · exact ⟨[], c :: cs, rfl, rfl, h⟩

theorem plusG_split {p : Char → Bool} {k : K} {cs : List Char} {r : Caps}
    (h : plusG p k cs = some r) :
    ∃ pre suf, cs = pre ++ suf ∧ pre ≠ [] ∧ pre.all p ∧ k suf = some r := by
  unfold plusG cls at h
  split at h
  · exact Option.noConfusion h
  · next c cs2 =>
    split at h
    · next hp =>
      obtain ⟨pre, suf, h1, h2, h3⟩ := manyG_split h
      exact ⟨c :: pre, suf, by simp [h1], by simp, by simp [hp, h2], h3⟩
    · exact Option.noConfusion h

theorem repEx_split {n : Nat} {p : Char → Bool} {k : K} {cs : List Char}
    {r : Caps} (h : repEx n p k cs = some r) :
    ∃ pre suf, cs = pre ++ suf ∧ pre.length = n ∧ pre.all p ∧
      k suf = some r := by
  induction n generalizing cs with
  | zero => exact ⟨[], cs, rfl, rfl, rfl, h⟩
  | succ n ih =>
    unfold repEx cls at h
    split at h
    · exact Option.noConfusion h
    · next c cs2 =>
      split at h
      · next hp =>
        obtain ⟨pre, suf, h1, h2, h3, h4⟩ := ih h
        exact ⟨c :: pre, suf, by simp [h1], by simp [h2], by simp [hp, h3], h4⟩
      · exact Option.noConfusion h

/-- What a capturing group stores, given a span inversion for its body. -/
theorem grp_span {set : Caps → String → Caps} {body : K → K} {k : K}
    {cs : List Char} {r : Caps} {B : List Char → Prop}
    (hbody : ∀ (k2 : K) (cs2 : List Char) (r2 : Caps), body k2 cs2 = some r2 →
      ∃ pre suf, cs2 = pre ++ suf ∧ B pre ∧ k2 suf = some r2)
    (h : grp set body k cs = some r) :
    ∃ caps2 pre suf, cs = pre ++ suf ∧ B pre ∧ k suf = some caps2 ∧
      r = set caps2 (String.mk pre) := by
  unfold grp at h
  obtain ⟨pre, suf, h1, h2, h3⟩ := hbody _ cs r h
  rw [Option.map_eq_some'] at h3
  obtain ⟨caps2, h4, h5⟩ := h3
  refine ⟨caps2, pre, suf, h1, h2, h4, ?_⟩
  rw [← h5, h1]
  have hlen : (pre ++ suf).length - suf.length = pre.length := by
    simp [List.length_append]
  rw [hlen, List.take_left]

theorem keeps_of_out {f : K → K} (hf : OutF f) (g : Caps → Option String) :
    Keeps f g := by
  intro k cs r hk h
  obtain ⟨cs2, h2⟩ := hf k cs r h
  exact hk cs2 r h2

theorem keeps_comp {f f2 : K → K} {g : Caps → Option String}
    (h1 : Keeps f g) (h2 : Keeps f2 g) : Keeps (f ∘ f2) g := by
  intro k cs r hk h
  exact h1 (f2 k) cs r (fun cs2 r2 hr => h2 k cs2 r2 hk hr) h

theorem keeps_grp {set : Caps → String → Caps} {body : K → K}
    {g : Caps → Option String} (hset : ∀ c s, g (set c s) = g c)
    (hb : OutF body) : Keeps (grp set body) g := by
  intro k cs r hk h
  unfold grp at h
  obtain ⟨cs2, h2⟩ := hb _ cs r h
  rw [Option.map_eq_some'] at h2
  obtain ⟨caps2, h3, h4⟩ := h2
  rw [← h4, hset]
  exact hk cs2 caps2 h3

theorem keeps_optG {x : K → K} {g : Caps → Option String} (hx : Keeps x g) :
    Keeps (optG x) g := by
  intro k cs r hk h
  unfold optG at h
  split at h
  · next heq => exact hx k cs r hk (h ▸ heq)
  · exact hk cs r h

theorem keeps_altC {bs : List (K → K)} {g : Caps → Option String}
    (hbs : ∀ b ∈ bs, Keeps b g) : Keeps (altC bs) g := by
  intro k cs r hk h
  obtain ⟨b, hb, h2⟩ := altC_inv h
  exact hbs b hb k cs r hk h2

/-! ### Character class facts -/

theorem not_ws_of_amt {c : Char} (h : isAmtC c = true) : isWs c = false := by
  by_contra hw
  rw [Bool.not_eq_false] at hw
  unfold isWs at hw
  simp only [Bool.or_eq_true, beq_iff_eq, or_assoc] at hw
  rcases hw with h1 | h1 | h1 | h1 | h1 | h1 <;> (subst h1; revert h; decide)

theorem not_ws_of_id {c : Char} (h : isIdC c = true) : isWs c = false := by
  by_contra hw
  rw [Bool.not_eq_false] at hw
  unfold isWs at hw
  simp only [Bool.or_eq_true, beq_iff_eq, or_assoc] at hw
  rcases hw with h1 | h1 | h1 | h1 | h1 | h1 <;> (subst h1; revert h; decide)

theorem dropWhile_ws_id {l : List Char} (h : ∀ c ∈ l, isWs c = false) :
    l.dropWhile isWs = l := by
  cases l with
  | nil => rfl
  | cons c cs => simp [List.dropWhile_cons, h c (by simp)]

theorem pyStripL_id {l : List Char} (h : ∀ c ∈ l, isWs c = false) :
    pyStripL l = l := by
  unfold pyStripL
  rw [dropWhile_ws_id h,
    dropWhile_ws_id (fun c hc => h c (List.mem_reverse.mp hc)),
    List.reverse_reverse]

theorem truthy_strip_amt {o : Option String} (h : amtGood o) :
    truthy (stripOpt o) = true := by
  obtain ⟨s, ho, hne, hall⟩ := h
  subst ho
  have hall2 : ∀ c ∈ s.data, isWs c = false := fun c hc =>
    not_ws_of_amt (List.all_eq_true.mp hall c hc)
  show truthy (some (pyStrip s)) = true
  unfold truthy pyStrip
  simp [pyStripL_id hall2, hne]

theorem grp_plusG_amt {set : Caps → String → Caps} {k : K} {cs : List Char}
    {r : Caps} (h : grp set (plusG isAmtC) k cs = some r) :
    ∃ caps2 s, r = set caps2 s ∧ s.data ≠ [] ∧ s.data.all isAmtC := by
  obtain ⟨caps2, pre, suf, h1, hB, h3, h4⟩ :=
    grp_span (B := fun pre => pre ≠ [] ∧ pre.all isAmtC)
      (fun k2 cs2 r2 hh => by
        obtain ⟨pre, suf, a, b, c, d⟩ := plusG_split hh
        exact ⟨pre, suf, a, ⟨b, c⟩, d⟩) h
  exact ⟨caps2, String.mk pre, h4, hB.1, hB.2⟩

theorem bFulizaUsed_amt {k : K} {cs : List Char} {r : Caps}
    (h : bFulizaUsed k cs = some r) : amtGood r.fuliza_amount := by
  unfold bFulizaUsed at h
  simp only [Function.comp] at h
  obtain ⟨cs1, h1⟩ := out_wordsCI _ _ _ _ h
  obtain ⟨cs2, h2⟩ := out_manyG _ _ _ _ h1
  obtain ⟨caps2, s, hset, hne, hall⟩ := grp_plusG_amt h2
  exact ⟨s, by rw [hset], hne, hall⟩

theorem bFulizaRepaid_amt {k : K} {cs : List Char} {r : Caps}
    (h : bFulizaRepaid k cs = some r) : amtGood r.fuliza_repaid := by
  unfold bFulizaRepaid at h
  simp only [Function.comp] at h
  obtain ⟨cs1, h1⟩ := out_litCI _ _ _ _ h
  obtain ⟨cs2, h2⟩ := out_manyG _ _ _ _ h1
  obtain ⟨caps2, s, hset, hne, hall⟩ := grp_plusG_amt h2
  exact ⟨s, by rw [hset], hne, hall⟩

theorem bReceived_amt {k : K} {cs : List Char} {r : Caps}
    (h : bReceived k cs = some r) : amtGood r.received_amount := by
  unfold bReceived at h
  simp only [Function.comp] at h
  obtain ⟨cs1, h1⟩ := out_wordsCI _ _ _ _ h
  obtain ⟨caps2, s, hset, hne, hall⟩ := grp_plusG_amt h1
  exact ⟨s, by rw [hset], hne, hall⟩

theorem bPaid_amt {k : K} {cs : List Char} {r : Caps}
    (h : bPaid k cs = some r) : amtGood r.paid_amount := by
  unfold bPaid at h
  simp only [Function.comp] at h
  obtain ⟨cs1, h1⟩ := out_litCI _ _ _ _ h
  obtain ⟨caps2, s, hset, hne, hall⟩ := grp_plusG_amt h1
  exact ⟨s, by rw [hset], hne, hall⟩

theorem bSent_amt {k : K} {cs : List Char} {r : Caps}
    (h : bSent k cs = some r) : amtGood r.sent_amount := by
  unfold bSent at h
  simp only [Function.comp] at h
  obtain ⟨cs1, h1⟩ := out_litCI _ _ _ _ h
  obtain ⟨caps2, s, hset, hne, hall⟩ := grp_plusG_amt h1
  exact ⟨s, by rw [hset], hne, hall⟩

theorem bMshwari_amt {k : K} {cs : List Char} {r : Caps}
    (h : bMshwari k cs = some r) : amtGood r.mshwari_amount := by
  unfold bMshwari at h
  simp only [Function.comp] at h
  obtain ⟨cs1, h1⟩ := out_litCI _ _ _ _ h
  obtain ⟨caps2, s, hset, hne, hall⟩ := grp_plusG_amt h1
  exact ⟨s, by rw [hset], hne, hall⟩

theorem bAirtime_amt {k : K} {cs : List Char} {r : Caps}
    (h : bAirtime k cs = some r) : amtGood r.airtime_amount := by
  unfold bAirtime at h
  simp only [Function.comp] at h
  obtain ⟨cs1, h1⟩ := out_wordsCI _ _ _ _ h
  obtain ⟨caps2, s, hset, hne, hall⟩ := grp_plusG_amt h1
  exact ⟨s, by rw [hset], hne, hall⟩

theorem bWithdraw_amt {k : K} {cs : List Char} {r : Caps}
    (h : bWithdraw k cs = some r) : amtGood r.withdraw_amount := by
  unfold bWithdraw at h
  simp only [Function.comp] at h
  obtain ⟨cs1, h1⟩ := out_optG
    (out_comp (out_litCI _) (out_comp (out_cls _) (out_plusL _))) _ _ _ h
  obtain ⟨cs2, h2⟩ := out_manyG _ _ _ _ h1
  obtain ⟨cs3, h3⟩ := out_litCI _ _ _ _ h2
  obtain ⟨cs4, h4⟩ := out_manyG _ _ _ _ h3
  obtain ⟨cs5, h5⟩ := out_litCI _ _ _ _ h4
  obtain ⟨caps2, s, hset, hne, hall⟩ := grp_plusG_amt h5
  exact ⟨s, by rw [hset], hne, hall⟩

theorem bBalance_amt {k : K} {cs : List Char} {r : Caps}
    (h : bBalance k cs = some r) : amtGood r.balance_amount := by
  unfold bBalance at h
  simp only [Function.comp] at h
  obtain ⟨cs1, h1⟩ := out_wordsCI _ _ _ _ h
  obtain ⟨caps2, s, hset, hne, hall⟩ := grp_plusG_amt h1
  exact ⟨s, by rw [hset], hne, hall⟩

theorem branches_amt {b : K → K} (hb : b ∈ branches) {k : K}
    {cs : List Char} {r : Caps} (h : b k cs = some r) :
    amtGood r.fuliza_amount ∨ amtGood r.fuliza_repaid ∨
    amtGood r.received_amount ∨ amtGood r.paid_amount ∨
    amtGood r.sent_amount ∨ amtGood r.mshwari_amount ∨
    amtGood r.airtime_amount ∨ amtGood r.withdraw_amount ∨
    amtGood r.balance_amount := by
  unfold branches at hb
  simp only [List.mem_cons, List.not_mem_nil, or_false] at hb
  rcases hb with h1 | h1 | h1 | h1 | h1 | h1 | h1 | h1 | h1 <;> subst h1
  · exact Or.inl (bFulizaUsed_amt h)
  · exact Or.inr (Or.inl (bFulizaRepaid_amt h))
  · exact Or.inr (Or.inr (Or.inl (bReceived_amt h)))
  · exact Or.inr (Or.inr (Or.inr (Or.inl (bPaid_amt h))))
  · exact Or.inr (Or.inr (Or.inr (Or.inr (Or.inl (bSent_amt h)))))
  · exact Or.inr (Or.inr (Or.inr (Or.inr (Or.inr (Or.inl (bMshwari_amt h))))))
  · exact Or.inr (Or.inr (Or.inr (Or.inr (Or.inr (Or.inr
      (Or.inl (bAirtime_amt h)))))))
  · exact Or.inr (Or.inr (Or.inr (Or.inr (Or.inr (Or.inr (Or.inr
      (Or.inl (bWithdraw_amt h))))))))
  · exact Or.inr (Or.inr (Or.inr (Or.inr (Or.inr (Or.inr (Or.inr
      (Or.inr (bBalance_amt h))))))))

theorem typeChain_isSome {c : Caps}
    (h : truthy c.fuliza_amount = true ∨ truthy c.fuliza_repaid = true ∨
      truthy c.received_amount = true ∨ truthy c.paid_amount = true ∨
      truthy c.sent_amount = true ∨ truthy c.mshwari_amount = true ∨
      truthy c.airtime_amount = true ∨ truthy c.withdraw_amount = true ∨
      truthy c.balance_amount = true) :
    ∃ t, (typeChain c).1 = some t := by
  suffices hs : (typeChain c).1.isSome = true by
    obtain ⟨t, ht⟩ := Option.isSome_iff_exists.mp hs
    exact ⟨t, ht⟩
  unfold typeChain
  repeat' split
  all_goals simp_all

theorem searchL_inv {f : List Char → Option Caps} {cs : List Char} {r : Caps}
    (h : searchL f cs = some r) : ∃ cs2, f cs2 = some r := by
  induction cs with
  | nil => exact ⟨[], h⟩
  | cons c cs ih =>
    unfold searchL at h
    split at h
    · next heq => exact ⟨_, h ▸ heq⟩
    · exact ih h

/-- Structure of any successful match of the main pattern: the transaction
id group carries ten characters of the id class, and one shape alternative
has marked its amount group, so the type chain will fire. -/
theorem mainSearch_struct {cs : List Char} {caps : Caps}
    (h : mainSearch cs = some caps) :
    (∃ t, (typeChain (stripCaps caps)).1 = some t) ∧
    (∃ s : String, (stripCaps caps).transaction_id = some s ∧
      s.data.length = 10 ∧ s.data.all isIdC) := by
  unfold mainSearch at h
  obtain ⟨cs1, h1⟩ := searchL_inv h
  unfold mainPat at h1
  simp only [Function.comp] at h1
  obtain ⟨caps1, pre, suf, hsplit, hB, h2, hset⟩ :=
    grp_span (B := fun pre => pre.length = 10 ∧ pre.all isIdC)
      (fun k2 cs2 r2 hh => by
        obtain ⟨pre, suf, a, b, c, d⟩ := repEx_split hh
        exact ⟨pre, suf, a, ⟨b, c⟩, d⟩) h1
  obtain ⟨cs2, h3⟩ := out_plusG isWs _ _ _ h2
  obtain ⟨cs3, h4⟩ := out_litCI _ _ _ _ h3
  obtain ⟨cs4, h5⟩ := out_optG (out_cls _) _ _ _ h4
  obtain ⟨cs5, h6⟩ := out_manyG isWs _ _ _ h5
  obtain ⟨b, hb, h7⟩ := altC_inv h6
  have hd := branches_amt hb h7
  subst hset
  constructor
  · refine typeChain_isSome ?_
    rcases hd with h | h | h | h | h | h | h | h | h
    · exact Or.inl (truthy_strip_amt h)
    · exact Or.inr (Or.inl (truthy_strip_amt h))
    · exact Or.inr (Or.inr (Or.inl (truthy_strip_amt h)))
    · exact Or.inr (Or.inr (Or.inr (Or.inl (truthy_strip_amt h))))
    · exact Or.inr (Or.inr (Or.inr (Or.inr (Or.inl (truthy_strip_amt h)))))
    · exact Or.inr (Or.inr (Or.inr (Or.inr (Or.inr
        (Or.inl (truthy_strip_amt h))))))
    · exact Or.inr (Or.inr (Or.inr (Or.inr (Or.inr (Or.inr
        (Or.inl (truthy_strip_amt h)))))))
    · exact Or.inr (Or.inr (Or.inr (Or.inr (Or.inr (Or.inr (Or.inr
        (Or.inl (truthy_strip_amt h))))))))
    · exact Or.inr (Or.inr (Or.inr (Or.inr (Or.inr (Or.inr (Or.inr
        (Or.inr (truthy_strip_amt h))))))))
  · refine ⟨String.mk pre, ?_, hB.1, hB.2⟩
    show stripOpt (some (String.mk pre)) = some (String.mk pre)
    unfold stripOpt pyStrip
    simp only [Option.map_some']
    rw [pyStripL_id (fun c hc => not_ws_of_id (List.all_eq_true.mp hB.2 c hc))]

/-! ### Concrete messages and claim theorems -/

theorem isOk_exists {p : PyResult} (h : isOk p = true) :
    ∃ r, p = PyResult.ok r := by
  cases p with
  | ok r => exact ⟨r, rfl⟩
  | errorDict s => exact Bool.noConfusion h
  | raised e => exact Bool.noConfusion h

/-- Claim C1: a well-formed RECEIVED message of the documented form should
parse with transaction type RECEIVED, the comma-free numeric amount, and
the combined date and time as its timestamp.  Evaluating the code at such a
message: the type and the amount are right, but the record carries no
combined timestamp at all, because the balance section of the pattern
(which precedes the date section) consumes the date and time text with its
lazy dot-star before the date section can see it.  The captured date and
time in the message are themselves well formed, as the last conjunct
shows. -/
theorem c1_received_timestamp_lost :
    isOk (parse_message msgC1) = true ∧
    ttypeOf (parse_message msgC1) = some TType.RECEIVED ∧
    amountOf (parse_message msgC1) = some 1000 ∧
    datetimeOf (parse_message msgC1) = none ∧
    strptimeDT "12/3/23 3:45 PM" =
      some { year := 2023, month := 3, day := 12, hour := 15, minute := 45 } :=
  ⟨by decide, by decide, by decide, by decide, by decide⟩

/-- Claim C2: the claim says a numeric span that cannot be normalized makes
parse return a classified MalformedAmount error, and that an empty capture
is an error, never the value zero.  The code does neither: `clean_amount`
maps the empty string to 0.0, and a non-normalizable captured span (here
the amount `,,,`) makes `parse_message` re-raise the `ValueError`, which
escapes the call instead of being returned. -/
theorem c2_counterexample :
    clean_amount "" = CleanRes.ok 0 ∧
    parse_message msgC2 = PyResult.raised PyError.valueError :=
  ⟨by decide, by decide⟩

/-- Claim C2 (amended): a captured numeric span whose cleaned form does not
parse as a decimal makes `clean_amount` raise a `ValueError` (which
`parse_message` re-raises to the caller instead of returning a classified
error value), and the empty string is normalized to 0.0 rather than
failing. -/
theorem c2_amended :
    (∀ s : String, s.data ≠ [] → floatOfDec (cleanCore s) = none →
      clean_amount s = CleanRes.valueError) ∧
    clean_amount "" = CleanRes.ok 0 ∧
    parse_message msgC2 = PyResult.raised PyError.valueError := by
  refine ⟨?_, by decide, by decide⟩
  intro s h1 h2
  unfold clean_amount
  rw [if_neg h1, h2]

theorem c2_amended_witness : clean_amount ",,," = CleanRes.valueError :=
  c2_amended.1 ",,," (by decide) (by decide)

/-- Claim C3: a message containing the insufficient-funds failure phrase
together with a recognizable PAID body parses with status FAILED and
transaction type PAID simultaneously; in general the status of any
successful parse is FAILED whenever the failure pattern matches, whatever
shape matched. -/
theorem c3_failed_and_paid :
    (∀ m : String, isOk (parse_message m) = true →
      failedSearch m.data = true →
      statusOf (parse_message m) = some Status.FAILED) ∧
    failedSearch msgC3.data = true ∧
    statusOf (parse_message msgC3) = some Status.FAILED ∧
    ttypeOf (parse_message msgC3) = some TType.PAID := by
  refine ⟨?_, by decide, by decide, by decide⟩
  intro m h hf
  obtain ⟨r, hr⟩ := isOk_exists h
  obtain ⟨caps, hm, hst, hty, htid⟩ := parse_ok_anatomy hr
  rw [hr]
  show some r.status = some Status.FAILED
  simp [hst, hf]

theorem c3_failed_and_paid_witness :
    statusOf (parse_message msgC3) = some Status.FAILED :=
  c3_failed_and_paid.1 msgC3 (by decide) (by decide)

/-- Claim C4: every result parse returns as a success carries exactly one
transaction type, one of the ten enumerated values; there is no input whose
successful record has zero types (and the single optional field cannot hold
two), and a message that cannot satisfy this fails entirely. -/
theorem c4_exactly_one_type (m : String)
    (h : isOk (parse_message m) = true) :
    ∃! t : TType, ttypeOf (parse_message m) = some t := by
  obtain ⟨r, hr⟩ := isOk_exists h
  obtain ⟨caps, hm, hst, hty, htid⟩ := parse_ok_anatomy hr
  obtain ⟨⟨t, ht⟩, -⟩ := mainSearch_struct hm
  refine ⟨t, ?_, ?_⟩
  · rw [hr]
    show r.transaction_type = some t
    rw [hty, ht]
  · intro y hy
    rw [hr] at hy
    have h2 : r.transaction_type = some y := hy
    rw [hty, ht] at h2
    exact (Option.some.inj h2).symm

theorem c4_exactly_one_type_witness :
    ∃! t : TType, ttypeOf (parse_message msgC4) = some t :=
  c4_exactly_one_type msgC4 (by decide)

/-- Claim C6: the claim says parse succeeds only with a transaction id of
exactly ten alphanumeric UPPERCASE characters.  Because the pattern is
compiled with `re.IGNORECASE`, a lowercase id is accepted and returned
as-is: this message parses successfully with transaction id
`ab12cd34ef`, which is not an uppercase-alphanumeric string. -/
theorem c6_counterexample :
    isOk (parse_message msgC6) = true ∧
    tidOf (parse_message msgC6) = some "ab12cd34ef" ∧
    ("ab12cd34ef".data.all
      (fun c => isDigitC c || (decide ('A' ≤ c) && decide (c ≤ 'Z')))) =
      false :=
  ⟨by decide, by decide, by decide⟩

/-- Claim C6 (amended): every successful parse carries a transaction id of
exactly ten characters of the id class, which under IGNORECASE is digits
and letters of either case (not necessarily uppercase); a message on which
the main pattern finds no match is answered with the unrecognized-format
error dictionary. -/
theorem c6_amended :
    (∀ m : String, isOk (parse_message m) = true →
      ∃ s : String, tidOf (parse_message m) = some s ∧
        s.data.length = 10 ∧ s.data.all isIdC = true) ∧
    (∀ m : String, mainSearch m.data = none →
      parse_message m = PyResult.errorDict "Message format not recognized") := by
  constructor
  · intro m h
    obtain ⟨r, hr⟩ := isOk_exists h
    obtain ⟨caps, hm, hst, hty, htid⟩ := parse_ok_anatomy hr
    obtain ⟨-, s, hs, hlen, hall⟩ := mainSearch_struct hm
    refine ⟨s, ?_, hlen, hall⟩
    rw [hr]
    show r.transaction_id = some s
    rw [htid, hs]
  · intro m h
    unfold parse_message
    rw [h]

theorem c6_amended_witness :
    ∃ s : String, tidOf (parse_message msgC6w) = some s ∧
      s.data.length = 10 ∧ s.data.all isIdC = true :=
  c6_amended.1 msgC6w (by decide)

/-- Claim C7: the claim says a malformed captured date or time makes parse
return the classified error MalformedTimestamp and that no unclassified
exception ever escapes the call.  In the code the `strptime` ValueError is
not caught: on this message the captured date `99/99/99` does not conform
to the format and the exception escapes `parse_message` instead of a
classified result being returned. -/
theorem c7_counterexample :
    strptimeDT "99/99/99 3:45 PM" = none ∧
    parse_message msgC7 = PyResult.raised PyError.valueError :=
  ⟨by decide, by decide⟩

/-- Claim C7 (amended): when a captured date and time do not conform to the
fixed strptime format, the resulting `ValueError` escapes `parse_message`
as an unclassified exception; no classified timestamp error value is
returned. -/
theorem c7_amended :
    (∀ (st : Status) (tt : Option TType)
      (a mb sb tc dl fi ft fl : Option ℚ) (c1 : Caps) (d t : String),
      c1.date = some d → c1.time = some t →
      strptimeDT (d ++ " " ++ t) = none →
      dateStage st tt a mb sb tc dl fi ft fl c1 =
        PyResult.raised PyError.valueError) ∧
    strptimeDT "99/99/99 3:45 PM" = none ∧
    parse_message msgC7 = PyResult.raised PyError.valueError := by
  refine ⟨?_, by decide, by decide⟩
  intro st tt a mb sb tc dl fi ft fl c1 d t hd ht hstr
  unfold dateStage
  rw [hd, ht]
  simp [hstr]

theorem c7_amended_witness :
    dateStage Status.SUCCESS none none none none none none none none none
      { date := some "99/99/99", time := some "3:45 PM" } =
      PyResult.raised PyError.valueError :=
  c7_amended.1 Status.SUCCESS none none none none none none none none none
    { date := some "99/99/99", time := some "3:45 PM" } "99/99/99" "3:45 PM"
    rfl rfl (by decide)

/-- Claim C8: the three documented values of `clean_amount`, and the
collapse rule: when more than one decimal point remains after cleaning, the
string handed to `float()` is the first segment plus the last segment of
the dot-split, interior segments discarded. -/
theorem c8_clean_amount_values :
    clean_amount "1,234.50" = CleanRes.ok (1234.5 : ℚ) ∧
    clean_amount ".75" = CleanRes.ok (0.75 : ℚ) ∧
    clean_amount "12.0.00" = CleanRes.ok (12 : ℚ) ∧
    (∀ s : String,
      1 < ((preCollapse s).filter (fun c => c = '.')).length →
      cleanCore s = (splitDots (preCollapse s)).headD [] ++
        '.' :: (splitDots (preCollapse s)).getLastD []) := by
  refine ⟨?_, ?_, by decide, ?_⟩
  · have h1 : (1234.5 : ℚ) = mkRat 123450 100 := by
      rw [Rat.mkRat_eq_div]; norm_num
    rw [h1]; decide
  · have h1 : (0.75 : ℚ) = mkRat 75 100 := by
      rw [Rat.mkRat_eq_div]; norm_num
    rw [h1]; decide
  · intro s h
    unfold cleanCore
    rw [if_pos h]

theorem c8_clean_amount_values_witness :
    cleanCore "12.0.00" = (splitDots (preCollapse "12.0.00")).headD [] ++
      '.' :: (splitDots (preCollapse "12.0.00")).getLastD [] :=
  c8_clean_amount_values.2.2.2 "12.0.00" (by decide)

/-- Claim C10: failure classification is case-sensitive although shape
recognition is case-insensitive: on a successful parse the status is FAILED
exactly when the case-sensitive failure pattern occurs in the message, and
the same message with `Failed.` upcased to `FAILED.` parses with status
SUCCESS. -/
theorem c10_failure_case_sensitive :
    (∀ m : String, isOk (parse_message m) = true →
      (statusOf (parse_message m) = some Status.FAILED ↔
        failedSearch m.data = true)) ∧
    failedSearch msgC10low.data = true ∧
    statusOf (parse_message msgC10low) = some Status.FAILED ∧
    failedSearch msgC10up.data = false ∧
    statusOf (parse_message msgC10up) = some Status.SUCCESS := by
  refine ⟨?_, by decide, by decide, by decide, by decide⟩
  intro m h
  obtain ⟨r, hr⟩ := isOk_exists h
  obtain ⟨caps, hm, hst, hty, htid⟩ := parse_ok_anatomy hr
  rw [hr]
  show some r.status = some Status.FAILED ↔ failedSearch m.data = true
  constructor
  · intro hs
    by_contra hff
    rw [Bool.not_eq_true] at hff
    rw [hff] at hst
    simp only [Bool.false_eq_true, if_false] at hst
    rw [hst] at hs
    exact Status.noConfusion (Option.some.inj hs)
  · intro hf
    rw [hst]
    simp [hf]

theorem c10_failure_case_sensitive_witness :
    statusOf (parse_message msgC10low) = some Status.FAILED :=
  (c10_failure_case_sensitive.1 msgC10low (by decide)).mpr (by decide)

theorem cls_eval {p : Char → Bool} {c : Char} (k : K) (cs : List Char)
    (hp : p c = true) : cls p k (c :: cs) = k cs := by
  simp [cls, hp]

theorem litCI_eval : ∀ {l pre : List Char} (k : K) (suf : List Char),
    ciMatches l pre = true → litCI l k (pre ++ suf) = k suf := by
  intro l
  induction l with
  | nil =>
    intro pre k suf h
    cases pre with
    | nil => rfl
    | cons b bs => exact Bool.noConfusion h
  | cons a as2 ih =>
    intro pre k suf h
    cases pre with
    | nil => exact Bool.noConfusion h
    | cons b bs =>
      unfold ciMatches at h
      rw [Bool.and_eq_true] at h
      show litCI (a :: as2) k (b :: (bs ++ suf)) = k suf
      have hstep : litCI (a :: as2) k (b :: (bs ++ suf)) =
          if ciEq a b = true then litCI as2 k (bs ++ suf) else none := rfl
      rw [hstep, if_pos h.1]
      exact ih k suf h.2

theorem litCI_head_fail {a c : Char} {l : List Char} (k : K) (cs : List Char)
    (h : ciEq a c = false) : litCI (a :: l) k (c :: cs) = none := by
  have hstep : litCI (a :: l) k (c :: cs) =
      if ciEq a c = true then litCI l k cs else none := rfl
  rw [hstep, h]
  simp

theorem litCI_inv_head {a : Char} {l : List Char} {k : K} {cs : List Char}
    {r : Caps} (h : litCI (a :: l) k cs = some r) :
    ∃ c2 cs2, cs = c2 :: cs2 ∧ ciEq a c2 = true := by
  unfold litCI at h
  split at h
  · exact Option.noConfusion h
  · next c2 cs2 =>
    split at h
    · next hc => exact ⟨c2, cs2, rfl, hc⟩
    · exact Option.noConfusion h

theorem manyG_cons_neg {p : Char → Bool} {c : Char} (k : K) (cs : List Char)
    (hp : p c = false) : manyG p k (c :: cs) = k (c :: cs) := by
  have hstep : manyG p k (c :: cs) =
      if p c then
        match manyG p k cs with
        | some r => some r
        | none => k (c :: cs)
      else k (c :: cs) := rfl
  rw [hstep, hp]
  simp

theorem manyG_cons_pos_some {p : Char → Bool} {c : Char} {k : K}
    {cs : List Char} {r : Caps} (hp : p c = true)
    (h : manyG p k cs = some r) : manyG p k (c :: cs) = some r := by
  have hstep : manyG p k (c :: cs) =
      if p c then
        match manyG p k cs with
        | some r => some r
        | none => k (c :: cs)
      else k (c :: cs) := rfl
  rw [hstep, hp, h]
  simp

theorem optG_some {x : K → K} {k : K} {cs : List Char} {r : Caps}
    (h : x k cs = some r) : optG x k cs = some r := by
  unfold optG
  rw [h]

theorem altC_cons_none {b : K → K} {bs : List (K → K)} {k : K}
    {cs : List Char} (h : b k cs = none) :
    altC (b :: bs) k cs = altC bs k cs := by
  have hstep : altC (b :: bs) k cs =
      match b k cs with
      | some r => some r
      | none => altC bs k cs := rfl
  rw [hstep, h]

theorem altC_cons_some {b : K → K} {bs : List (K → K)} {k : K}
    {cs : List Char} {r : Caps} (h : b k cs = some r) :
    altC (b :: bs) k cs = some r := by
  have hstep : altC (b :: bs) k cs =
      match b k cs with
      | some r => some r
      | none => altC bs k cs := rfl
  rw [hstep, h]

theorem repEx_eval {p : Char → Bool} (k : K) :
    ∀ {pre : List Char} (suf : List Char), pre.all p = true →
      repEx pre.length p k (pre ++ suf) = k suf := by
  intro pre
  induction pre with
  | nil => intro suf _; rfl
  | cons c cs ih =>
    intro suf h
    rw [List.all_cons, Bool.and_eq_true] at h
    show cls p (repEx cs.length p k) (c :: (cs ++ suf)) = k suf
    rw [cls_eval _ _ h.1]
    exact ih suf h.2

theorem grp_repEx_eval {set : Caps → String → Caps} {p : Char → Bool}
    {k : K} {pre : List Char} (suf : List Char) {n : Nat}
    (hn : pre.length = n) (hp : pre.all p = true) :
    grp set (repEx n p) k (pre ++ suf) =
      (k suf).map (fun c => set c (String.mk pre)) := by
  subst hn
  unfold grp
  rw [repEx_eval _ suf hp]
  have hlen : (pre ++ suf).length - suf.length = pre.length := by
    simp [List.length_append]
  rw [hlen, List.take_left]

theorem searchL_of_some {f : List Char → Option Caps} {cs : List Char}
    {r : Caps} (h : f cs = some r) : searchL f cs = some r := by
  cases cs with
  | nil => exact h
  | cons c cs2 =>
    unfold searchL
    rw [h]

theorem not_ws_of_ciK {c : Char} (h : ciEq 'K' c = true) : isWs c = false := by
  by_contra hw
  rw [Bool.not_eq_false] at hw
  unfold isWs at hw
  simp only [Bool.or_eq_true, beq_iff_eq, or_assoc] at hw
  rcases hw with h1 | h1 | h1 | h1 | h1 | h1 <;> (subst h1; revert h; decide)

theorem ciF_of_ciK {c : Char} (h : ciEq 'K' c = true) : ciEq 'F' c = false := by
  unfold ciEq at h ⊢
  rw [beq_iff_eq] at h
  have h2 : lowerC c = 'k' := by rw [← h]; decide
  rw [h2]
  decide

/-! ### The whole downstream of the repayment branch leaves the Fuliza
usage amount group unset -/

theorem keeps_secBalance : Keeps secBalance (fun c => c.fuliza_amount) := by
  unfold secBalance
  exact keeps_optG (keeps_comp (keeps_of_out (out_manyL _) _)
    (keeps_comp (keeps_optG (keeps_of_out (out_comp (out_litCI _) (out_cls _)) _))
    (keeps_comp (keeps_optG (keeps_of_out (out_comp (out_litCI _) (out_cls _)) _))
    (keeps_comp (keeps_of_out (out_litCI _) _)
    (keeps_comp (keeps_optG (keeps_of_out (out_comp (out_cls _) (out_litCI _)) _))
    (keeps_comp (keeps_of_out (out_cls _) _)
    (keeps_comp (keeps_of_out (out_litCI _) _)
    (keeps_comp (keeps_of_out (out_manyG _) _)
      (keeps_grp (fun c s => rfl) (out_plusG _))))))))))

theorem keeps_secMshwariBal : Keeps secMshwariBal (fun c => c.fuliza_amount) := by
  unfold secMshwariBal
  exact keeps_optG (keeps_comp (keeps_of_out (out_manyL _) _)
    (keeps_comp (keeps_of_out (out_litCI _) _)
    (keeps_comp (keeps_of_out (out_cls _) _)
    (keeps_comp (keeps_of_out (out_altC (by
      intro b hb
      simp only [List.mem_cons, List.not_mem_nil, or_false] at hb
      rcases hb with h | h <;> subst h
      · exact out_litCI _
      · exact out_wordsCI _)) _)
    (keeps_comp (keeps_optG (keeps_of_out (out_comp (out_cls _) (out_litCI _)) _))
    (keeps_comp (keeps_of_out (out_cls _) _)
    (keeps_comp (keeps_of_out (out_litCI _) _)
    (keeps_comp (keeps_of_out (out_manyG _) _)
      (keeps_grp (fun c s => rfl) (out_plusG _))))))))))

theorem out_dateBody : OutF dateBody := by
  unfold dateBody
  exact out_comp (out_rep12 _) (out_comp (out_cls _) (out_comp (out_rep12 _)
    (out_comp (out_cls _) (out_repEx 2 _))))

theorem out_timeBody : OutF timeBody := by
  unfold timeBody
  exact out_comp (out_rep12 _) (out_comp (out_cls _) (out_comp (out_repEx 2 _)
    (out_comp (out_manyG _) (out_comp (out_cls _) (out_litCI _)))))

theorem keeps_secDate : Keeps secDate (fun c => c.fuliza_amount) := by
  unfold secDate
  exact keeps_optG (keeps_comp (keeps_of_out (out_manyL _) _)
    (keeps_comp (keeps_optG (keeps_of_out (out_comp (out_litCI _) (out_cls _)) _))
    (keeps_comp (keeps_grp (fun c s => rfl) out_dateBody)
      (keeps_optG (keeps_comp (keeps_of_out (out_cls _) _)
        (keeps_comp (keeps_of_out (out_litCI _) _)
        (keeps_comp (keeps_of_out (out_cls _) _)
          (keeps_grp (fun c s => rfl) out_timeBody))))))))

theorem out_costBody : OutF costBody := by
  unfold costBody
  exact out_comp (out_optG (out_cls _)) (out_comp (out_plusG _)
    (out_comp (out_optG (out_cls _)) (out_manyG _)))

theorem keeps_secCost : Keeps secCost (fun c => c.fuliza_amount) := by
  unfold secCost
  exact keeps_optG (keeps_comp (keeps_of_out (out_manyL _) _)
    (keeps_comp (keeps_of_out (out_wordsCI _) _)
    (keeps_comp (keeps_optG (keeps_of_out (out_altC (by
      intro b hb
      simp only [List.mem_cons, List.not_mem_nil, or_false] at hb
      rcases hb with h | h <;> subst h
      · exact out_cls _
      · exact out_comp (out_cls _) (out_cls _))) _))
    (keeps_comp (keeps_of_out (out_litCI _) _)
      (keeps_optG (keeps_grp (fun c s => rfl) out_costBody))))))

theorem keeps_secLimit : Keeps secLimit (fun c => c.fuliza_amount) := by
  unfold secLimit
  exact keeps_optG (keeps_comp (keeps_of_out (out_manyL _) _)
    (keeps_comp (keeps_of_out (out_wordsCI _) _)
    (keeps_comp (keeps_of_out (out_cls _) _)
      (keeps_grp (fun c s => rfl) (out_plusG _)))))

theorem keeps_bFulizaRepaid : Keeps bFulizaRepaid (fun c => c.fuliza_amount) := by
  unfold bFulizaRepaid
  exact keeps_comp (keeps_of_out (out_litCI _) _)
    (keeps_comp (keeps_of_out (out_manyG _) _)
    (keeps_comp (keeps_grp (fun c s => rfl) (out_plusG _))
    (keeps_comp (keeps_of_out (out_cls _) _)
    (keeps_comp (keeps_of_out (out_wordsCI _) _)
    (keeps_comp (keeps_of_out (out_cls _) _)
    (keeps_comp (keeps_of_out (out_altC (by
      intro b hb
      simp only [List.mem_cons, List.not_mem_nil, or_false] at hb
      rcases hb with h | h <;> subst h
      · exact out_litCI _
      · exact out_litCI _)) _)
    (keeps_comp (keeps_of_out (out_cls _) _)
    (keeps_comp (keeps_of_out (out_wordsCI _) _)
    (keeps_comp (keeps_optG (keeps_of_out (out_cls _) _))
      (keeps_optG (keeps_comp (keeps_of_out (out_manyG _) _)
        (keeps_comp (keeps_of_out (out_wordsCI _) _)
        (keeps_comp (keeps_of_out (out_manyG _) _)
          (keeps_grp (fun c s => rfl) (out_plusG _)))))))))))))))

theorem trailingK_fuliza_amount :
    ∀ (cs : List Char) (r : Caps), trailingK cs = some r →
      r.fuliza_amount = none := by
  intro cs r h
  unfold trailingK at h
  refine keeps_secBalance _ cs r ?_ h
  intro cs2 r2 h2
  refine keeps_secMshwariBal _ cs2 r2 ?_ h2
  intro cs3 r3 h3
  refine keeps_secDate _ cs3 r3 ?_ h3
  intro cs4 r4 h4
  refine keeps_secCost _ cs4 r4 ?_ h4
  intro cs5 r5 h5
  refine keeps_secLimit _ cs5 r5 ?_ h5
  intro cs6 r6 h6
  cases h6
  rfl

theorem repaid_fuliza_amount {cs : List Char} {r : Caps}
    (h : bFulizaRepaid trailingK cs = some r) : r.fuliza_amount = none :=
  keeps_bFulizaRepaid trailingK cs r
    (fun cs2 r2 h2 => trailingK_fuliza_amount cs2 r2 h2) h

/-- Claim C5: the claim says any message whose text satisfies both the
Fuliza-repayment anchor and the SENT pattern resolves to FULIZA_REPAYMENT,
never SENT.  The alternation order only matters at the match position
immediately after the confirmation marker: in this message the repayment
branch pattern matches later in the text (first conjunct) while the SENT
text sits at the match position, and the parse resolves to SENT. -/
theorem c5_counterexample :
    (searchL (bFulizaRepaid acceptK) msgC5.data).isSome = true ∧
    isOk (parse_message msgC5) = true ∧
    ttypeOf (parse_message msgC5) = some TType.SENT :=
  ⟨by decide, by decide, by decide⟩

/-- Claim C5 (amended): shape priority is positional.  When the text at the
match position (the body right after the transaction id and the
confirmation marker) matches the Fuliza-repayment branch, the earlier
branches cannot match there, the repayment branch wins over SENT and every
later shape, and a successful parse carries FULIZA_REPAYMENT, never
SENT. -/
theorem c5_amended (tid body : String) (r : Record)
    (hlen : tid.data.length = 10) (hall : tid.data.all isIdC = true)
    (hrep : (bFulizaRepaid trailingK body.data).isSome = true)
    (hok : parse_message (tid ++ " Confirmed. " ++ body) = PyResult.ok r) :
    r.transaction_type = some TType.FULIZA_REPAYMENT := by
  obtain ⟨caps2, h2⟩ := Option.isSome_iff_exists.mp hrep
  have hheads : ∃ c2 cs2, body.data = c2 :: cs2 ∧ ciEq 'K' c2 = true := by
    have h3 := h2
    unfold bFulizaRepaid at h3
    simp only [Function.comp] at h3
    exact litCI_inv_head h3
  obtain ⟨c0, rest0, hbody, hciK⟩ := hheads
  have hws : isWs c0 = false := not_ws_of_ciK hciK
  have hb1 : bFulizaUsed trailingK (c0 :: rest0) = none := by
    unfold bFulizaUsed
    simp only [Function.comp]
    show wordsCI ["Fuliza", "M-PESA", "amount", "is", "Ksh"] _ (c0 :: rest0) =
      none
    unfold wordsCI
    exact litCI_head_fail _ _ (ciF_of_ciK hciK)
  have halt : altC branches trailingK (c0 :: rest0) = some caps2 := by
    unfold branches
    rw [altC_cons_none hb1]
    refine altC_cons_some ?_
    rw [← hbody]
    exact h2
  have hmany1 : manyG isWs (altC branches trailingK)
      (' ' :: c0 :: rest0) = some caps2 := by
    refine manyG_cons_pos_some (by decide) ?_
    rw [manyG_cons_neg _ _ hws]
    exact halt
  have hopt : optG (cls (· = '.')) (manyG isWs (altC branches trailingK))
      ('.' :: ' ' :: c0 :: rest0) = some caps2 := by
    refine optG_some ?_
    rw [cls_eval _ _ (by decide)]
    exact hmany1
  have hlit : litCI "confirmed".data
      (optG (cls (· = '.')) (manyG isWs (altC branches trailingK)))
      ("Confirmed".data ++ ('.' :: ' ' :: c0 :: rest0)) = some caps2 := by
    rw [litCI_eval _ _ (by decide)]
    exact hopt
  have hplus : plusG isWs (litCI "confirmed".data
      (optG (cls (· = '.')) (manyG isWs (altC branches trailingK))))
      (' ' :: ("Confirmed".data ++ ('.' :: ' ' :: c0 :: rest0))) =
      some caps2 := by
    unfold plusG
    rw [cls_eval _ _ (by decide)]
    have hccons : "Confirmed".data ++ ('.' :: ' ' :: c0 :: rest0) =
        'C' :: ("onfirmed".data ++ ('.' :: ' ' :: c0 :: rest0)) := rfl
    rw [hccons, manyG_cons_neg _ _ (by decide), ← hccons]
    exact hlit
  have hmain : mainPat acceptK
      (tid.data ++ (' ' :: ("Confirmed".data ++ ('.' :: ' ' :: c0 :: rest0)))) =
      some { caps2 with transaction_id := some (String.mk tid.data) } := by
    unfold mainPat
    simp only [Function.comp]
    rw [show secBalance (secMshwariBal (secDate (secCost (secLimit acceptK)))) =
      trailingK from rfl]
    rw [grp_repEx_eval _ hlen hall, hplus]
    rfl
  have hms : mainSearch (tid ++ " Confirmed. " ++ body).data =
      some { caps2 with transaction_id := some (String.mk tid.data) } := by
    unfold mainSearch
    have hdata : (tid ++ " Confirmed. " ++ body).data =
        tid.data ++
          (' ' :: ("Confirmed".data ++ ('.' :: ' ' :: c0 :: rest0))) := by
      rw [String.data_append, String.data_append, hbody, List.append_assoc]
      rfl
    rw [hdata]
    exact searchL_of_some hmain
  obtain ⟨caps, hm, hst, hty, htid⟩ := parse_ok_anatomy hok
  rw [hms] at hm
  injection hm with hcaps
  subst hcaps
  rw [hty]
  have hfa : truthy (stripCaps
      { caps2 with transaction_id := some (String.mk tid.data) }).fuliza_amount
      = false := by
    show truthy (stripOpt caps2.fuliza_amount) = false
    rw [repaid_fuliza_amount h2]
    rfl
  have hfr : truthy (stripCaps
      { caps2 with transaction_id := some (String.mk tid.data) }).fuliza_repaid
      = true := by
    show truthy (stripOpt caps2.fuliza_repaid) = true
    exact truthy_strip_amt (bFulizaRepaid_amt h2)
  unfold typeChain
  simp [hfa, hfr]

set_option maxRecDepth 8000 in
theorem c5_amended_witness :
    ttypeOf (parse_message (msgC5tid ++ " Confirmed. " ++ msgC5body)) =
      some TType.FULIZA_REPAYMENT := by
  obtain ⟨r, hr⟩ := isOk_exists
    (by decide :
      isOk (parse_message (msgC5tid ++ " Confirmed. " ++ msgC5body)) = true)
  rw [hr]
  show r.transaction_type = some TType.FULIZA_REPAYMENT
  exact c5_amended msgC5tid msgC5body r (by decide) (by decide) (by decide) hr

/-! ### Idempotence of the normaliser: a decimal rendering of a cleaned
value cleans back to the same value -/

theorem digit_ne_dot {c : Char} (h : isDigitC c = true) : ¬(c = '.') := by
  intro h2; subst h2; revert h; decide

theorem digit_ne_comma {c : Char} (h : isDigitC c = true) : ¬(c = ',') := by
  intro h2; subst h2; revert h; decide

theorem digit_ne_space {c : Char} (h : isDigitC c = true) : ¬(c = ' ') := by
  intro h2; subst h2; revert h; decide

theorem digit_ne_minus {c : Char} (h : isDigitC c = true) : ¬(c = '-') := by
  intro h2; subst h2; revert h; decide

theorem digit_ne_plus {c : Char} (h : isDigitC c = true) : ¬(c = '+') := by
  intro h2; subst h2; revert h; decide

theorem digit_not_ws {c : Char} (h : isDigitC c = true) : isWs c = false := by
  by_contra hw
  rw [Bool.not_eq_false] at hw
  unfold isWs at hw
  simp only [Bool.or_eq_true, beq_iff_eq, or_assoc] at hw
  rcases hw with h1 | h1 | h1 | h1 | h1 | h1 <;> (subst h1; revert h; decide)

theorem takeWhile_all {p : Char → Bool} :
    ∀ {l : List Char}, (∀ c ∈ l, p c = true) → l.takeWhile p = l := by
  intro l
  induction l with
  | nil => intro _; rfl
  | cons c cs ih =>
    intro h
    rw [List.takeWhile_cons, if_pos (h c (by simp))]
    rw [ih (fun x hx => h x (by simp [hx]))]

theorem dropWhile_all {p : Char → Bool} :
    ∀ {l : List Char}, (∀ c ∈ l, p c = true) → l.dropWhile p = [] := by
  intro l
  induction l with
  | nil => intro _; rfl
  | cons c cs ih =>
    intro h
    rw [List.dropWhile_cons, if_pos (h c (by simp))]
    exact ih (fun x hx => h x (by simp [hx]))

theorem takeWhile_append_stop {p : Char → Bool} {c : Char} {l2 : List Char}
    (hc : p c = false) :
    ∀ {l1 : List Char}, (∀ x ∈ l1, p x = true) →
      (l1 ++ c :: l2).takeWhile p = l1 := by
  intro l1
  induction l1 with
  | nil =>
    intro _
    show (c :: l2).takeWhile p = []
    rw [List.takeWhile_cons, if_neg (by simp [hc])]
  | cons d ds ih =>
    intro h
    show (d :: (ds ++ c :: l2)).takeWhile p = d :: ds
    rw [List.takeWhile_cons, if_pos (h d (by simp))]
    rw [ih (fun x hx => h x (by simp [hx]))]

theorem dropWhile_append_stop {p : Char → Bool} {c : Char} {l2 : List Char}
    (hc : p c = false) :
    ∀ {l1 : List Char}, (∀ x ∈ l1, p x = true) →
      (l1 ++ c :: l2).dropWhile p = c :: l2 := by
  intro l1
  induction l1 with
  | nil =>
    intro _
    show (c :: l2).dropWhile p = c :: l2
    rw [List.dropWhile_cons, if_neg (by simp [hc])]
  | cons d ds ih =>
    intro h
    show (d :: (ds ++ c :: l2)).dropWhile p = c :: l2
    rw [List.dropWhile_cons, if_pos (h d (by simp))]
    exact ih (fun x hx => h x (by simp [hx]))

theorem floatOfDec_cons {c : Char} {r : List Char} :
    floatOfDec (c :: r) =
      (if c = '-' then decBody (-1) r
       else if c = '+' then decBody 1 r else decBody 1 (c :: r)) := rfl

theorem decBody_eval_int {sign : Int} {ip : List Char}
    (hip : ∀ c ∈ ip, isDigitC c = true) (hne : ip ≠ []) :
    decBody sign ip = some (mkRat (sign * natOfDigits ip) 1) := by
  unfold decBody
  rw [takeWhile_all hip, dropWhile_all hip]
  show (if ip = [] then none else some (mkRat (sign * natOfDigits ip) 1)) = _
  rw [if_neg hne]

theorem decBody_eval_dot {sign : Int} {ip fr : List Char}
    (hip : ∀ c ∈ ip, isDigitC c = true) (hfr : ∀ c ∈ fr, isDigitC c = true)
    (hcond : ip ≠ [] ∨ fr ≠ []) :
    decBody sign (ip ++ '.' :: fr) =
      some (mkRat (sign * (natOfDigits ip * 10 ^ fr.length + natOfDigits fr))
        (10 ^ fr.length)) := by
  unfold decBody
  rw [takeWhile_append_stop (by decide) hip,
    dropWhile_append_stop (by decide) hip]
  show (if fr.all isDigitC = true ∧ (ip ≠ [] ∨ fr ≠ []) then
      some (mkRat (sign * (natOfDigits ip * 10 ^ fr.length + natOfDigits fr))
        (10 ^ fr.length))
    else none) = _
  rw [if_pos ⟨List.all_eq_true.mpr hfr, hcond⟩]

theorem floatOfDec_signed_int {sgn : List Char} {sign : Int} {ip : List Char}
    (hsgn : signShape sgn sign) (hip : ∀ c ∈ ip, isDigitC c = true)
    (hne : ip ≠ []) :
    floatOfDec (sgn ++ ip) = some (mkRat (sign * natOfDigits ip) 1) := by
  rcases hsgn with ⟨h1, h2⟩ | ⟨h1, h2⟩ | ⟨h1, h2⟩ <;> subst h1 <;> subst h2 <;>
    simp only [List.cons_append, List.nil_append]
  · cases hip2 : ip with
    | nil => exact absurd hip2 hne
    | cons d ds =>
      subst hip2
      have hd : isDigitC d = true := hip d (by simp)
      rw [floatOfDec_cons, if_neg (digit_ne_minus hd),
        if_neg (digit_ne_plus hd)]
      exact decBody_eval_int hip hne
  · rw [floatOfDec_cons, if_pos rfl]
    exact decBody_eval_int hip hne
  · rw [floatOfDec_cons, if_neg (by decide), if_pos rfl]
    exact decBody_eval_int hip hne

theorem floatOfDec_signed_dot {sgn : List Char} {sign : Int} {ip fr : List Char}
    (hsgn : signShape sgn sign) (hip : ∀ c ∈ ip, isDigitC c = true)
    (hfr : ∀ c ∈ fr, isDigitC c = true) (hcond : ip ≠ [] ∨ fr ≠ []) :
    floatOfDec (sgn ++ ip ++ '.' :: fr) =
      some (mkRat (sign * (natOfDigits ip * 10 ^ fr.length + natOfDigits fr))
        (10 ^ fr.length)) := by
  rcases hsgn with ⟨h1, h2⟩ | ⟨h1, h2⟩ | ⟨h1, h2⟩ <;> subst h1 <;> subst h2 <;>
    simp only [List.cons_append, List.nil_append, List.append_assoc]
  · cases hip2 : ip with
    | nil =>
      subst hip2
      simp only [List.nil_append]
      rw [floatOfDec_cons, if_neg (by decide), if_neg (by decide)]
      exact @decBody_eval_dot 1 [] fr (fun c hc => absurd hc (by simp)) hfr
        (by simpa using hcond)
    | cons d ds =>
      subst hip2
      simp only [List.cons_append]
      have hd : isDigitC d = true := hip d (by simp)
      rw [floatOfDec_cons, if_neg (digit_ne_minus hd),
        if_neg (digit_ne_plus hd)]
      exact @decBody_eval_dot 1 (d :: ds) fr hip hfr hcond
  · rw [floatOfDec_cons, if_pos rfl]
    exact decBody_eval_dot hip hfr hcond
  · rw [floatOfDec_cons, if_neg (by decide), if_pos rfl]
    exact decBody_eval_dot hip hfr hcond

/-- Inversion of the decimal model on any accepted rendering. -/
theorem floatOfDec_shape {l : List Char} {q : ℚ} (h : floatOfDec l = some q) :
    ∃ (sgn : List Char) (sign : Int) (ip rest : List Char),
      l = sgn ++ ip ++ rest ∧ signShape sgn sign ∧
      (∀ c ∈ ip, isDigitC c = true) ∧
      ((rest = [] ∧ ip ≠ [] ∧ q = mkRat (sign * natOfDigits ip) 1) ∨
       (∃ fr, rest = '.' :: fr ∧ (∀ c ∈ fr, isDigitC c = true) ∧
         (ip ≠ [] ∨ fr ≠ []) ∧
         q = mkRat (sign * (natOfDigits ip * 10 ^ fr.length + natOfDigits fr))
               (10 ^ fr.length))) := by
  have hbody : ∀ (sign : Int) (body : List Char), decBody sign body = some q →
      ∃ ip rest, body = ip ++ rest ∧ (∀ c ∈ ip, isDigitC c = true) ∧
        ((rest = [] ∧ ip ≠ [] ∧ q = mkRat (sign * natOfDigits ip) 1) ∨
         (∃ fr, rest = '.' :: fr ∧ (∀ c ∈ fr, isDigitC c = true) ∧
           (ip ≠ [] ∨ fr ≠ []) ∧
           q = mkRat (sign * (natOfDigits ip * 10 ^ fr.length + natOfDigits fr))
                 (10 ^ fr.length))) := by
    intro sign body hb
    unfold decBody at hb
    refine ⟨body.takeWhile isDigitC, body.dropWhile isDigitC,
      (List.takeWhile_append_dropWhile isDigitC body).symm,
      fun c hc => List.mem_takeWhile_imp hc, ?_⟩
    split at hb
    · next heq =>
      split at hb
      · exact Option.noConfusion hb
      · next hne =>
        exact Or.inl ⟨heq, hne, (Option.some.inj hb).symm⟩
    · next fr heq =>
      split at hb
      · next hcond =>
        exact Or.inr ⟨fr, heq, List.all_eq_true.mp hcond.1, hcond.2,
          (Option.some.inj hb).symm⟩
      · exact Option.noConfusion hb
    · exact Option.noConfusion hb
  cases hl : l with
  | nil =>
    rw [hl] at h
    exact Option.noConfusion h
  | cons c r =>
    rw [hl] at h
    rw [floatOfDec_cons] at h
    by_cases hm : c = '-'
    · rw [if_pos hm] at h
      obtain ⟨ip, rest, h1, h2, h3⟩ := hbody (-1) r h
      exact ⟨['-'], -1, ip, rest, by simp [h1, hm], Or.inr (Or.inl ⟨rfl, rfl⟩),
        h2, h3⟩
    · rw [if_neg hm] at h
      by_cases hp : c = '+'
      · rw [if_pos hp] at h
        obtain ⟨ip, rest, h1, h2, h3⟩ := hbody 1 r h
        exact ⟨['+'], 1, ip, rest, by simp [h1, hp], Or.inr (Or.inr ⟨rfl, rfl⟩),
          h2, h3⟩
      · rw [if_neg hp] at h
        obtain ⟨ip, rest, h1, h2, h3⟩ := hbody 1 (c :: r) h
        exact ⟨[], 1, ip, rest, by simp [h1], Or.inl ⟨rfl, rfl⟩, h2, h3⟩

/-! ### The cleaning pipeline is value-preserving on decimal renderings -/

theorem natOfDigits_nil : natOfDigits [] = 0 := rfl

theorem natOfDigits_zero : natOfDigits ['0'] = 0 := by decide

theorem filter_noop {p : Char → Bool} :
    ∀ {l : List Char}, (∀ c ∈ l, p c = true) → l.filter p = l := by
  intro l
  induction l with
  | nil => intro _; rfl
  | cons c cs ih =>
    intro h
    rw [List.filter_cons, if_pos (h c (by simp))]
    rw [ih (fun x hx => h x (by simp [hx]))]

theorem filter_none {p : Char → Bool} :
    ∀ {l : List Char}, (∀ c ∈ l, p c = false) → l.filter p = [] := by
  intro l
  induction l with
  | nil => intro _; rfl
  | cons c cs ih =>
    intro h
    rw [List.filter_cons, if_neg (by simp [h c (by simp)])]
    exact ih (fun x hx => h x (by simp [hx]))

theorem exists_snoc {l : List Char} (h : l ≠ []) : ∃ a d, l = a ++ [d] := by
  induction l with
  | nil => exact absurd rfl h
  | cons c r ih =>
    cases r with
    | nil => exact ⟨[], c, rfl⟩
    | cons x xs =>
      obtain ⟨a, d, had⟩ := ih (by simp)
      exact ⟨c :: a, d, by rw [had]; rfl⟩

theorem rstripDots_snoc_ne {a : List Char} {d : Char} (h : ¬(d = '.')) :
    rstripDots (a ++ [d]) = a ++ [d] := by
  unfold rstripDots
  have h1 : (a ++ [d]).reverse = d :: a.reverse := by simp
  rw [h1, List.dropWhile_cons, if_neg (by simp [h])]
  simp

theorem rstripDots_snoc_dot {a : List Char} :
    rstripDots (a ++ ['.']) = rstripDots a := by
  unfold rstripDots
  have h1 : (a ++ ['.']).reverse = '.' :: a.reverse := by simp
  rw [h1, List.dropWhile_cons, if_pos (by decide)]

theorem rstripDots_digits_end {a ds : List Char}
    (hds : ∀ c ∈ ds, isDigitC c = true) (hne : ds ≠ []) :
    rstripDots (a ++ ds) = a ++ ds := by
  obtain ⟨b, d, hbd⟩ := exists_snoc hne
  subst hbd
  rw [← List.append_assoc]
  exact rstripDots_snoc_ne (digit_ne_dot (hds d (by simp)))

theorem prependZero_cons_ne {c : Char} {r : List Char} (h : ¬(c = '.')) :
    prependZero (c :: r) = c :: r := by
  show (if c = '.' then '0' :: c :: r else c :: r) = c :: r
  rw [if_neg h]

theorem prependZero_dot {r : List Char} :
    prependZero ('.' :: r) = '0' :: '.' :: r := by
  show (if ('.' : Char) = '.' then '0' :: '.' :: r else '.' :: r) = _
  rw [if_pos rfl]

theorem mem_prependZero {c : Char} {l : List Char} (h : c ∈ prependZero l) :
    c = '0' ∨ c ∈ l := by
  cases l with
  | nil => exact Or.inr h
  | cons d r =>
    by_cases hd : d = '.'
    · subst hd
      rw [prependZero_dot] at h
      rcases List.mem_cons.mp h with h1 | h1
      · exact Or.inl h1
      · exact Or.inr h1
    · rw [prependZero_cons_ne hd] at h
      exact Or.inr h

theorem plain_digit {c : Char} (h : isDigitC c = true) :
    ¬(c = ',') ∧ ¬(c = ' ') ∧ isWs c = false :=
  ⟨digit_ne_comma h, digit_ne_space h, digit_not_ws h⟩

theorem plain_sgn {sgn : List Char} {sign : Int} (hsgn : signShape sgn sign) :
    ∀ c ∈ sgn, ¬(c = ',') ∧ ¬(c = ' ') ∧ isWs c = false ∧ ¬(c = '.') := by
  rcases hsgn with ⟨h1, _⟩ | ⟨h1, _⟩ | ⟨h1, _⟩ <;> subst h1 <;> intro c hc
  · exact absurd hc (by simp)
  · rw [List.mem_singleton] at hc
    subst hc
    exact ⟨by decide, by decide, by decide, by decide⟩
  · rw [List.mem_singleton] at hc
    subst hc
    exact ⟨by decide, by decide, by decide, by decide⟩

theorem preCollapse_eval {t : String} {L : List Char} (ht : t.data = L)
    (hplain : ∀ c ∈ L, ¬(c = ',') ∧ ¬(c = ' ') ∧ isWs c = false) :
    preCollapse t = rstripDots (prependZero L) := by
  unfold preCollapse
  rw [ht]
  have h1 : L.filter (fun c => !(c = ',')) = L :=
    filter_noop (fun c hc => by simp [(hplain c hc).1])
  have h2 : L.filter (fun c => !(c = ' ')) = L :=
    filter_noop (fun c hc => by simp [(hplain c hc).2.1])
  rw [h1, h2]
  have h3 : ∀ c ∈ prependZero L, isWs c = false := by
    intro c hc
    rcases mem_prependZero hc with h4 | h4
    · subst h4
      decide
    · exact (hplain c h4).2.2
  rw [pyStripL_id h3]

theorem prependZero_shape {sgn : List Char} {sign : Int} {ip u : List Char}
    (hsgn : signShape sgn sign) (hip : ∀ c ∈ ip, isDigitC c = true)
    (hni : ¬(sgn ++ ip = [])) :
    prependZero (sgn ++ (ip ++ u)) = sgn ++ (ip ++ u) := by
  rcases hsgn with ⟨h1, _⟩ | ⟨h1, _⟩ | ⟨h1, _⟩ <;> subst h1
  · cases ip with
    | nil => exact absurd (by rfl) hni
    | cons d ds =>
      have hd := hip d (by simp)
      show prependZero (d :: (ds ++ u)) = d :: (ds ++ u)
      exact prependZero_cons_ne (digit_ne_dot hd)
  · show prependZero ('-' :: (ip ++ u)) = '-' :: (ip ++ u)
    exact prependZero_cons_ne (by decide)
  · show prependZero ('+' :: (ip ++ u)) = '+' :: (ip ++ u)
    exact prependZero_cons_ne (by decide)

theorem filter_dot_sgn_ip {sgn : List Char} {sign : Int} {ip : List Char}
    (hsgn : signShape sgn sign) (hip : ∀ c ∈ ip, isDigitC c = true) :
    (sgn ++ ip).filter (fun c => c = '.') = [] := by
  apply filter_none
  intro c hc
  rcases List.mem_append.mp hc with h1 | h1
  · simp [(plain_sgn hsgn c h1).2.2.2]
  · simp [digit_ne_dot (hip c h1)]

theorem filter_dot_one {sgn : List Char} {sign : Int} {ip fr : List Char}
    (hsgn : signShape sgn sign) (hip : ∀ c ∈ ip, isDigitC c = true)
    (hfr : ∀ c ∈ fr, isDigitC c = true) :
    (sgn ++ (ip ++ '.' :: fr)).filter (fun c => c = '.') = ['.'] := by
  have h1 : sgn.filter (fun c => c = '.') = [] :=
    filter_none (fun c hc => by simp [(plain_sgn hsgn c hc).2.2.2])
  have h2 : ip.filter (fun c => c = '.') = [] :=
    filter_none (fun c hc => by simp [digit_ne_dot (hip c hc)])
  have h3 : fr.filter (fun c => c = '.') = [] :=
    filter_none (fun c hc => by simp [digit_ne_dot (hfr c hc)])
  rw [List.filter_append, List.filter_append, h1, h2, List.filter_cons,
    if_pos (by decide), h3]
  rfl

theorem cleanCore_preserves {t : String} {q : ℚ}
    (h : floatOfDec t.data = some q) : floatOfDec (cleanCore t) = some q := by
  obtain ⟨sgn, sign, ip, rest, hl, hsgn, hip, hcase⟩ := floatOfDec_shape h
  rcases hcase with ⟨hrest, hne, hq⟩ | ⟨fr, hrest, hfr, hcond, hq⟩
  · subst hrest
    have hL : t.data = sgn ++ ip := by rw [hl, List.append_nil]
    have hplain : ∀ c ∈ sgn ++ ip,
        ¬(c = ',') ∧ ¬(c = ' ') ∧ isWs c = false := by
      intro c hc
      rcases List.mem_append.mp hc with h1 | h1
      · exact ⟨(plain_sgn hsgn c h1).1, (plain_sgn hsgn c h1).2.1,
          (plain_sgn hsgn c h1).2.2.1⟩
      · exact plain_digit (hip c h1)
    have hni : ¬(sgn ++ ip = []) := fun hc => hne (List.append_eq_nil.mp hc).2
    have hpz : prependZero (sgn ++ ip) = sgn ++ ip := by
      have h2 : prependZero (sgn ++ (ip ++ ([] : List Char))) =
          sgn ++ (ip ++ ([] : List Char)) := prependZero_shape hsgn hip hni
      simpa using h2
    have hpre : preCollapse t = sgn ++ ip := by
      rw [preCollapse_eval hL hplain, hpz]
      exact rstripDots_digits_end hip hne
    have hcc : cleanCore t = sgn ++ ip := by
      unfold cleanCore
      rw [hpre, filter_dot_sgn_ip hsgn hip, if_neg (by decide)]
    rw [hcc, floatOfDec_signed_int hsgn hip hne, hq]
  · subst hrest
    have hL : t.data = sgn ++ (ip ++ '.' :: fr) := by
      rw [hl, List.append_assoc]
    have hplain : ∀ c ∈ sgn ++ (ip ++ '.' :: fr),
        ¬(c = ',') ∧ ¬(c = ' ') ∧ isWs c = false := by
      intro c hc
      rcases List.mem_append.mp hc with h1 | h1
      · exact ⟨(plain_sgn hsgn c h1).1, (plain_sgn hsgn c h1).2.1,
          (plain_sgn hsgn c h1).2.2.1⟩
      rcases List.mem_append.mp h1 with h2 | h2
      · exact plain_digit (hip c h2)
      rcases List.mem_cons.mp h2 with h3 | h3
      · subst h3
        exact ⟨by decide, by decide, by decide⟩
      · exact plain_digit (hfr c h3)
    by_cases hfrnil : fr = []
    · subst hfrnil
      have hne : ip ≠ [] := by
        rcases hcond with hc | hc
        · exact hc
        · exact absurd rfl hc
      have hni : ¬(sgn ++ ip = []) := fun hc => hne (List.append_eq_nil.mp hc).2
      have hpz : prependZero (sgn ++ (ip ++ ['.'])) = sgn ++ (ip ++ ['.']) :=
        prependZero_shape hsgn hip hni
      have hpre : preCollapse t = sgn ++ ip := by
        rw [preCollapse_eval hL hplain, hpz, ← List.append_assoc,
          rstripDots_snoc_dot]
        exact rstripDots_digits_end hip hne
      have hcc : cleanCore t = sgn ++ ip := by
        unfold cleanCore
        rw [hpre, filter_dot_sgn_ip hsgn hip, if_neg (by decide)]
      rw [hcc, floatOfDec_signed_int hsgn hip hne, hq]
      simp [natOfDigits_nil]
    · by_cases hni : sgn ++ ip = []
      · obtain ⟨hsgn0, hip0⟩ := List.append_eq_nil.mp hni
        subst hsgn0
        subst hip0
        have hsign1 : sign = 1 := by
          rcases hsgn with ⟨_, h2⟩ | ⟨h1, _⟩ | ⟨h1, _⟩
          · exact h2
          · exact absurd h1 (by decide)
          · exact absurd h1 (by decide)
        subst hsign1
        have hL2 : t.data = '.' :: fr := hL
        have hplain2 : ∀ c ∈ ('.' :: fr),
            ¬(c = ',') ∧ ¬(c = ' ') ∧ isWs c = false := by
          intro c hc
          rcases List.mem_cons.mp hc with h3 | h3
          · subst h3
            exact ⟨by decide, by decide, by decide⟩
          · exact plain_digit (hfr c h3)
        have hpre : preCollapse t = '0' :: '.' :: fr := by
          rw [preCollapse_eval hL2 hplain2, prependZero_dot]
          have h0 : ('0' :: '.' :: fr) = (['0', '.'] : List Char) ++ fr := rfl
          rw [h0]
          exact rstripDots_digits_end hfr hfrnil
        have hf3 : fr.filter (fun c => c = '.') = [] :=
          filter_none (fun c hc => by simp [digit_ne_dot (hfr c hc)])
        have hdots : ('0' :: '.' :: fr).filter (fun c => c = '.') = ['.'] := by
          rw [List.filter_cons, if_neg (by decide), List.filter_cons,
            if_pos (by decide), hf3]
        have hcc : cleanCore t = '0' :: '.' :: fr := by
          unfold cleanCore
          rw [hpre, hdots, if_neg (by decide)]
        rw [hcc]
        have hfd : floatOfDec (([] : List Char) ++ ['0'] ++ '.' :: fr) =
            some (mkRat (1 * (natOfDigits ['0'] * 10 ^ fr.length +
              natOfDigits fr)) (10 ^ fr.length)) :=
          floatOfDec_signed_dot (Or.inl ⟨rfl, rfl⟩)
            (fun c hc => by
              rw [List.mem_singleton] at hc
              subst hc
              decide)
            hfr (Or.inl (by decide))
        rw [show (([] : List Char) ++ ['0'] ++ '.' :: fr) = '0' :: '.' :: fr
          from rfl] at hfd
        rw [hfd, hq, natOfDigits_zero, natOfDigits_nil]
      · have hpz : prependZero (sgn ++ (ip ++ '.' :: fr)) =
            sgn ++ (ip ++ '.' :: fr) := prependZero_shape hsgn hip hni
        have hpre : preCollapse t = sgn ++ (ip ++ '.' :: fr) := by
          rw [preCollapse_eval hL hplain, hpz]
          have he : sgn ++ (ip ++ '.' :: fr) = (sgn ++ ip ++ ['.']) ++ fr := by
            simp
          rw [he]
          exact rstripDots_digits_end hfr hfrnil
        have hcc : cleanCore t = sgn ++ (ip ++ '.' :: fr) := by
          unfold cleanCore
          rw [hpre, filter_dot_one hsgn hip hfr, if_neg (by decide)]
        rw [hcc, ← List.append_assoc,
          floatOfDec_signed_dot hsgn hip hfr hcond, hq]

/-- Claim C9: `clean_amount` is idempotent.  If `clean_amount` succeeds with
value `q` on some input, and `t` is a plain decimal rendering of `q` (the
textual form of the returned float), then `clean_amount` applied to `t`
returns the same value `q`. -/
theorem c9_idempotent (s t : String) (q : ℚ)
    (h1 : clean_amount s = CleanRes.ok q) (h2 : floatOfDec t.data = some q) :
    clean_amount t = CleanRes.ok q := by
  have hne : ¬(t.data = []) := by
    intro hc
    rw [hc] at h2
    exact Option.noConfusion h2
  unfold clean_amount
  rw [if_neg hne, cleanCore_preserves h2]

theorem c9_idempotent_witness :
    clean_amount (String.mk ['1', ',', '0', '0', '0']) = CleanRes.ok 1000 ∧
    floatOfDec (String.mk ['1', '0', '0', '0', '.', '0']).data = some 1000 ∧
    clean_amount (String.mk ['1', '0', '0', '0', '.', '0']) =
      CleanRes.ok 1000 :=
  ⟨by decide, by decide,
    c9_idempotent (String.mk ['1', ',', '0', '0', '0'])
      (String.mk ['1', '0', '0', '0', '.', '0']) 1000 (by decide) (by decide)⟩

end Mpesa
